import Mathlib

/-! # Storage utilities of the agent (`pkg/agent/storage/utils.go`)

A shallow embedding of `GetProvider`, `FileExists` and `RemoveDir`, with the
process environment, the backend SDK constructors and the file system passed
explicitly, followed by the properties proved about them.
-/

namespace Storage

/-! ## Go values -/

/-- POSIX error numbers that the modelled system calls can report. -/
inductive Errno where
  | ENOENT
  | ENOTDIR
  | EACCES
  | EPERM
  | EBUSY
  | ENOTEMPTY
  | ELOOP
  | ESTALE
  | ENAMETOOLONG
  deriving DecidableEq, Repr

/-- A non-nil Go `error` value. `pathError` is `*fs.PathError`, `errorf` is the
value built by `fmt.Errorf(format, inner)`, `sdk` is an error produced by a
backend SDK. A Go result of type `error` is an `Option GoError` (`none` is
`nil`). -/
inductive GoError where
  | pathError (op : String) (path : List String) (errno : Errno)
  | errorf (format : String) (inner : GoError)
  | sdk (msg : String)
  deriving DecidableEq, Repr

/-! ## Protocols and providers -/

/-- Modelled from the spec: the type `Protocol` and its constants `GCS`, `S3`,
`HTTPS`, `HTTP` are declared outside the files at hand. The spec lists these
four variants; `other` stands for every value of the type that is none of them
(the `switch` of `GetProvider` has no case for it). The four constants are
pairwise distinct, as Go rejects a `switch` with duplicate constant cases. -/
inductive Protocol where
  | GCS
  | S3
  | HTTPS
  | HTTP
  | other (scheme : String)
  deriving DecidableEq, Repr

/-- The four protocols `GetProvider` has a case for. -/
def Protocol.known : Protocol → Bool
  | .GCS => true
  | .S3 => true
  | .HTTPS => true
  | .HTTP => true
  | .other _ => false

/-- Options of `gstorage.NewClient`; only `option.WithoutAuthentication()` is used. -/
inductive ClientOption where
  | WithoutAuthentication
  deriving DecidableEq, Repr

/-- Handle of a `*gstorage.Client` returned by the SDK. -/
structure GCSClient where
  handle : Nat
  deriving DecidableEq, Repr

/-- The value of `credentials.AnonymousCredentials`. -/
inductive Credentials where
  | AnonymousCredentials
  deriving DecidableEq, Repr

/-- The fields of `aws.Config` that `GetProvider` sets. All four are pointers in
the SDK; `none` is a field left unset. -/
structure AwsConfig where
  Region : Option String
  S3ForcePathStyle : Option Bool
  Endpoint : Option String := none
  Credentials : Option Credentials := none
  deriving DecidableEq, Repr

/-- Handle of a `*session.Session` returned by the SDK. -/
structure Session where
  handle : Nat
  deriving DecidableEq, Repr

/-- Result of `stiface.AdaptClient`. -/
structure AdaptedClient where
  client : GCSClient
  deriving DecidableEq, Repr

/-- Result of `s3.New`. -/
structure S3Client where
  sess : Session
  deriving DecidableEq, Repr

/-- Result of `s3manager.NewDownloaderWithClient`. -/
structure Downloader where
  client : S3Client
  deriving DecidableEq, Repr

/-- A `*http.Client` allocated by the composite literal `&http.Client{}`. -/
structure HttpClient where
  addr : Nat
  deriving DecidableEq, Repr

/-- Modelled from the spec: the provider structs are declared outside the files
at hand. The variants are the three the spec lists, with the fields that the
composite literals of `GetProvider` set. -/
inductive ProviderObj where
  | GCSProvider (Client : AdaptedClient)
  | S3Provider (Client : S3Client) (Downloader : Downloader)
  | HTTPSProvider (Client : HttpClient)
  deriving DecidableEq, Repr

/-- A pointer to a provider struct: the address it was allocated at and the
struct it points to (providers are not mutated after construction). Two
references are the same instance when they are equal. -/
structure ProviderRef where
  addr : Nat
  obj : ProviderObj
  deriving DecidableEq, Repr

/-- A value of the interface type `Provider`; `none` is the nil interface. -/
abbrev Provider := Option ProviderRef

/-- An allocated `map[Protocol]Provider`: `none` is a missing key, `some v` a
key bound to `v` (which may itself be the nil interface). -/
abbrev Registry := Protocol → Option Provider

/-- The map with no key. -/
def Registry.empty : Registry := fun _ => none

/-- The map after `providers[k] = v`. -/
def Registry.set (providers : Registry) (k : Protocol) (v : Provider) : Registry :=
  fun q => if q = k then some v else providers q

/-- The value of the expression `providers[k]`: the zero value on a missing key. -/
def Registry.index (providers : Registry) (k : Protocol) : Provider :=
  (providers k).getD none

/-- Which provider struct a protocol is served by. -/
def variantMatches : Protocol → ProviderObj → Bool
  | .GCS, .GCSProvider _ => true
  | .S3, .S3Provider _ _ => true
  | .HTTPS, .HTTPSProvider _ => true
  | .HTTP, .HTTPSProvider _ => true
  | _, _ => false

/-! ## The process environment and the SDKs -/

/-- What `GetProvider` reads from outside: the process environment, the names of
the environment variables (constants of the credential packages), the Unicode
lower-case table behind `strings.ToLower`, and the two SDK constructors, each
returning a Go pair `(value, error)`. -/
structure Sys where
  LookupEnv : String → Option String
  GCSCredentialEnvKey : String
  AWSRegion : String
  S3UseVirtualBucket : String
  AWSEndpointUrl : String
  AWSAnonymousCredential : String
  lowerTable : Char → Char
  NewClient : List ClientOption → GCSClient × Option GoError
  NewSession : AwsConfig → Session × Option GoError

/-- The function `unicode.ToLower`: ASCII letters are shifted, other ASCII runes are
kept, and runes above ASCII go through the case table. -/
def unicodeToLower (table : Char → Char) (r : Char) : Char :=
  if r.toNat < 128 then
    if 65 ≤ r.toNat ∧ r.toNat ≤ 90 then Char.ofNat (r.toNat + 32) else r
  else table r

/-- The function `strings.ToLower`: every rune mapped through `unicode.ToLower`. -/
def ToLower (table : Char → Char) (s : String) : String :=
  ⟨s.data.map (unicodeToLower table)⟩

/-- What a call does that is visible from outside: environment reads and
constructions, in program order. -/
inductive Event where
  | LookupEnv (key : String)
  | NewClient (opts : List ClientOption)
  | NewSession (cfg : AwsConfig)
  | S3New (sess : Session)
  | NewHttpClient (addr : Nat)
  | NewProvider (addr : Nat)
  deriving DecidableEq, Repr

/-- The state a call works on: the registry map and the next free heap address. -/
structure Store where
  providers : Registry
  next : Nat

/-- Outcome of the `switch` of `GetProvider`: an early `return nil, err`, or
falling out of the switch with the updated state. -/
inductive SwitchResult where
  | returned (err : GoError) (trace : List Event)
  | fellThrough (st : Store) (trace : List Event)

/-- The `aws.Config` built in `case S3`, lines 118 to 136. -/
def s3Config (sys : Sys) : AwsConfig :=
  let region := (sys.LookupEnv sys.AWSRegion).getD ""
  let useVirtualBucket :=
    match sys.LookupEnv sys.S3UseVirtualBucket with
    | some useVirtualBucketString =>
      if ToLower sys.lowerTable useVirtualBucketString = "false" then false else true
    | none => true
  let awsConfig : AwsConfig :=
    { Region := some region, S3ForcePathStyle := some (!useVirtualBucket) }
  let awsConfig :=
    match sys.LookupEnv sys.AWSEndpointUrl with
    | some endpoint => { awsConfig with Endpoint := some endpoint }
    | none => awsConfig
  match sys.LookupEnv sys.AWSAnonymousCredential with
  | some useAnonCred =>
    if ToLower sys.lowerTable useAnonCred = "true" then
      { awsConfig with Credentials := some Credentials.AnonymousCredentials }
    else awsConfig
  | none => awsConfig

/-- The options `gstorage.NewClient` is called with in `case GCS`, lines 99 to 105. -/
def gcsOptions (sys : Sys) : List ClientOption :=
  match sys.LookupEnv sys.GCSCredentialEnvKey with
  | some _ => []
  | none => [ClientOption.WithoutAuthentication]

/-- The `switch protocol` of `GetProvider`, lines 93 to 159. -/
def providerSwitch (sys : Sys) (st : Store) (protocol : Protocol) : SwitchResult :=
  match protocol with
  | .GCS =>
    let opts := gcsOptions sys
    let trace := [Event.LookupEnv sys.GCSCredentialEnvKey, Event.NewClient opts]
    match sys.NewClient opts with
    | (_, some err) => .returned err trace
    | (gcsClient, none) =>
      .fellThrough
        { providers := st.providers.set .GCS
            (some ⟨st.next, .GCSProvider ⟨gcsClient⟩⟩),
          next := st.next + 1 }
        (trace ++ [Event.NewProvider st.next])
  | .S3 =>
    let awsConfig := s3Config sys
    let trace := [Event.LookupEnv sys.AWSRegion, Event.LookupEnv sys.S3UseVirtualBucket,
      Event.LookupEnv sys.AWSEndpointUrl, Event.LookupEnv sys.AWSAnonymousCredential,
      Event.NewSession awsConfig]
    match sys.NewSession awsConfig with
    | (_, some err) => .returned err trace
    | (sess, none) =>
      let sessionClient : S3Client := ⟨sess⟩
      .fellThrough
        { providers := st.providers.set .S3
            (some ⟨st.next, .S3Provider sessionClient ⟨sessionClient⟩⟩),
          next := st.next + 1 }
        (trace ++ [Event.S3New sess, Event.NewProvider st.next])
  | .HTTPS =>
    let httpsClient : HttpClient := ⟨st.next⟩
    .fellThrough
      { providers := st.providers.set .HTTPS
          (some ⟨st.next + 1, .HTTPSProvider httpsClient⟩),
        next := st.next + 2 }
      [Event.NewHttpClient st.next, Event.NewProvider (st.next + 1)]
  | .HTTP =>
    let httpsClient : HttpClient := ⟨st.next⟩
    .fellThrough
      { providers := st.providers.set .HTTP
          (some ⟨st.next + 1, .HTTPSProvider httpsClient⟩),
        next := st.next + 2 }
      [Event.NewHttpClient st.next, Event.NewProvider (st.next + 1)]
  | .other _ => .fellThrough st []

/-- What a call of `GetProvider` yields: the two return values, the state
afterwards and what the call did. -/
structure Outcome where
  provider : Provider
  err : Option GoError
  store : Store
  trace : List Event

/-- The function `GetProvider`, lines 88 to 162. -/
def GetProvider (sys : Sys) (st : Store) (protocol : Protocol) : Outcome :=
  match st.providers protocol with
  | some provider => ⟨provider, none, st, []⟩
  | none =>
    match providerSwitch sys st protocol with
    | .returned err trace => ⟨none, some err, st, trace⟩
    | .fellThrough st1 trace => ⟨st1.providers.index protocol, none, st1, trace⟩

/-- A value of type `map[Protocol]Provider` as a caller may pass it: the nil map,
or an allocated map with its entries. -/
inductive GoMap where
  | nil
  | alloc (entries : Registry)

/-- The lookup `v, ok := m[k]`; the nil map has no key and reading it is allowed. -/
def GoMap.lookup : GoMap → Protocol → Option Provider
  | .nil, _ => none
  | .alloc entries, k => entries k

/-- The value of the expression `m[k]`: the zero value on a missing key. -/
def GoMap.index (m : GoMap) (k : Protocol) : Provider :=
  (m.lookup k).getD none

/-- The statement `m[k] = v`: `none` when it panics, which it does on the nil
map. -/
def GoMap.assign : GoMap → Protocol → Provider → Option GoMap
  | .nil, _, _ => none
  | .alloc entries, k, v => some (.alloc (entries.set k v))

/-- What a call of `GetProvider` on any map value comes to: it returns its two
values, with the map and the next free address afterwards, or it panics. -/
inductive MapOutcome where
  | returned (provider : Provider) (err : Option GoError) (providers : GoMap) (next : Nat)
      (trace : List Event)
  | panicked (msg : String) (next : Nat) (trace : List Event)

/-- The assignment `providers[key] = v` that ends a case of the switch, followed
by `return providers[protocol], nil` at line 161. -/
def storeAndReturn (providers : GoMap) (protocol key : Protocol) (v : Provider)
    (next : Nat) (trace : List Event) : MapOutcome :=
  match providers.assign key v with
  | none => .panicked "assignment to entry in nil map" next trace
  | some providers1 => .returned (providers1.index protocol) none providers1 next trace

/-- The function `GetProvider`, lines 88 to 162, on any value of the map type,
the nil map included. On an allocated map it is `GetProvider` above. -/
def GetProviderOnMap (sys : Sys) (providers : GoMap) (next : Nat) (protocol : Protocol) :
    MapOutcome :=
  match providers.lookup protocol with
  | some provider => .returned provider none providers next []
  | none =>
    match protocol with
    | .GCS =>
      let opts := gcsOptions sys
      let trace := [Event.LookupEnv sys.GCSCredentialEnvKey, Event.NewClient opts]
      match sys.NewClient opts with
      | (_, some err) => .returned none (some err) providers next trace
      | (gcsClient, none) =>
        storeAndReturn providers protocol .GCS (some ⟨next, .GCSProvider ⟨gcsClient⟩⟩)
          (next + 1) (trace ++ [Event.NewProvider next])
    | .S3 =>
      let awsConfig := s3Config sys
      let trace := [Event.LookupEnv sys.AWSRegion, Event.LookupEnv sys.S3UseVirtualBucket,
        Event.LookupEnv sys.AWSEndpointUrl, Event.LookupEnv sys.AWSAnonymousCredential,
        Event.NewSession awsConfig]
      match sys.NewSession awsConfig with
      | (_, some err) => .returned none (some err) providers next trace
      | (sess, none) =>
        let sessionClient : S3Client := ⟨sess⟩
        storeAndReturn providers protocol .S3
          (some ⟨next, .S3Provider sessionClient ⟨sessionClient⟩⟩)
          (next + 1) (trace ++ [Event.S3New sess, Event.NewProvider next])
    | .HTTPS =>
      let httpsClient : HttpClient := ⟨next⟩
      storeAndReturn providers protocol .HTTPS (some ⟨next + 1, .HTTPSProvider httpsClient⟩)
        (next + 2) [Event.NewHttpClient next, Event.NewProvider (next + 1)]
    | .HTTP =>
      let httpsClient : HttpClient := ⟨next⟩
      storeAndReturn providers protocol .HTTP (some ⟨next + 1, .HTTPSProvider httpsClient⟩)
        (next + 2) [Event.NewHttpClient next, Event.NewProvider (next + 1)]
    | .other _ => .returned (providers.index protocol) none providers next []

/-- Whether an event is an environment read. -/
def Event.isEnvRead : Event → Bool
  | .LookupEnv _ => true
  | _ => false

/-- Whether an event constructs a backend client, session or provider. -/
def Event.isConstruction : Event → Bool
  | .LookupEnv _ => false
  | _ => true

/-- Whether an event builds a backend client (a GCS client, an AWS session or
an HTTP client). -/
def Event.isBackendClient : Event → Bool
  | .NewClient _ => true
  | .NewSession _ => true
  | .NewHttpClient _ => true
  | _ => false

/-- The error with which the backend constructor of a protocol answers in an
environment (`none` when it succeeds or when the protocol has no fallible
constructor). -/
def constructionError (sys : Sys) : Protocol → Option GoError
  | .GCS => (sys.NewClient (gcsOptions sys)).2
  | .S3 => (sys.NewSession (s3Config sys)).2
  | _ => none

/-- The constructor call that building the provider of a protocol starts with. -/
def constructorCall (sys : Sys) : Protocol → Option Event
  | .GCS => some (Event.NewClient (gcsOptions sys))
  | .S3 => some (Event.NewSession (s3Config sys))
  | _ => none

/-- Equality of two rune sequences up to the case of ASCII letters, the second
one being in lower case. -/
def eqIgnoreAsciiCase : List Char → List Char → Bool
  | [], [] => true
  | c :: cs, d :: ds =>
    (decide (c = d) || decide (65 ≤ c.toNat ∧ c.toNat ≤ 90 ∧ c.toNat + 32 = d.toNat))
      && eqIgnoreAsciiCase cs ds
  | _, _ => false

/-- An example process: the given environment, the variable names used by the
credential packages, a case table holding the two runes above ASCII whose
lower case is an ASCII letter, a GCS constructor that succeeds and a session
constructor that rejects an empty region. -/
def demoSys (env : String → Option String) : Sys where
  LookupEnv := env
  GCSCredentialEnvKey := "GOOGLE_APPLICATION_CREDENTIALS"
  AWSRegion := "AWS_REGION"
  S3UseVirtualBucket := "S3_USER_VIRTUAL_BUCKET"
  AWSEndpointUrl := "AWS_ENDPOINT_URL"
  AWSAnonymousCredential := "awsAnonymousCredential"
  lowerTable := fun c =>
    if c.toNat = 8490 then 'k' else if c.toNat = 304 then 'i' else c
  NewClient := fun _ => (⟨1⟩, none)
  NewSession := fun cfg =>
    if cfg.Region = some "" then (⟨0⟩, some (GoError.sdk "MissingRegion")) else (⟨2⟩, none)

/-- An example environment: a region, path-style addressing requested in upper
case, anonymous credentials requested in mixed case, no endpoint override and
no GCS credential path. -/
def demoEnv : String → Option String := fun k =>
  if k = "AWS_REGION" then some "us-east-1"
  else if k = "S3_USER_VIRTUAL_BUCKET" then some "FALSE"
  else if k = "awsAnonymousCredential" then some "True"
  else none

/-- The environment with no variable set. -/
def emptyEnv : String → Option String := fun _ => none

/-- A registry holding an entry under a protocol value outside the four. -/
def staleRegistry : Registry :=
  Registry.empty.set (.other "pvc://") (some ⟨0, .HTTPSProvider ⟨1⟩⟩)

/-- The invariant of the registry: keys among the four protocols, no nil
provider, and the variant that goes with the key. -/
def RegistryInv (providers : Registry) : Prop :=
  ∀ p v, providers p = some v →
    p.known = true ∧ ∃ ref, v = some ref ∧ variantMatches p ref.obj = true

/-- A sequence of `GetProvider` calls, each in its own environment and with
its own SDK behaviour, run from a state. -/
def runCalls (st : Store) : List (Sys × Protocol) → Store
  | [] => st
  | (sys, protocol) :: rest => runCalls (GetProvider sys st protocol).store rest

/-! ## The file system -/

/-- A path, as the list of its components below the root. -/
abbrev Path := List String

/-- The function `filepath.Join(dir, name)` for a single component `name`. -/
def Join (dir : Path) (name : String) : Path := dir ++ [name]

/-- The directory part of a path: all components but the last. -/
def parentDir (p : Path) : Path := p.dropLast

/-- Whether `q` is `p` or lies beneath `p`. -/
def under : Path → Path → Bool
  | [], _ => true
  | _ :: _, [] => false
  | a :: p, b :: q => decide (a = b) && under p q

/-- Whether `q` lies beneath `p` without being `p`. -/
def strictlyUnder (p q : Path) : Bool := under p q && decide (q ≠ p)

/-- The type bits of a Go `FileMode`. -/
inductive FileType where
  | regular
  | directory
  | symlink
  | namedPipe
  | socket
  | device
  | charDevice
  | irregular
  deriving DecidableEq, Repr

/-- What the file system records for an entry: its type and the permissions the
process has on it. On a directory, `readable` lets the process list it,
`writable` lets it add and unlink entries, `searchable` lets it reach the
entries inside. -/
structure FileInfo where
  fileType : FileType
  readable : Bool := true
  writable : Bool := true
  searchable : Bool := true
  deriving DecidableEq, Repr

/-- The method `FileInfo.IsDir`. -/
def FileInfo.IsDir (info : FileInfo) : Bool := decide (info.fileType = FileType.directory)

/-- The method `FileMode.IsRegular`. -/
def FileInfo.IsRegular (info : FileInfo) : Bool := decide (info.fileType = FileType.regular)

/-- A file system state. `paths` holds the entries, the root `[]` among them,
each under the path that reaches it through directories only; `info` is what is
recorded for an entry; `target` is the path a symbolic link holds (taken from
the root); `fault` is an error the kernel raises for a path name whatever the
tree holds (a stale file handle, a name too long). -/
structure FS where
  paths : List Path
  info : Path → FileInfo
  target : Path → Path := fun _ => []
  fault : Path → Option Errno := fun _ => none

/-- One step of path resolution, the entry `name` of the directory `cur`:
`ENOTDIR` when `cur` is not a directory, `EACCES` when it cannot be searched,
`ENOENT` when it has no such entry. -/
def FS.lookupIn (fs : FS) (cur : Path) (name : String) : Except Errno Path :=
  if (fs.info cur).IsDir then
    if (fs.info cur).searchable then
      if cur ++ [name] ∈ fs.paths then .ok (cur ++ [name]) else .error .ENOENT
    else .error .EACCES
  else .error .ENOTDIR

/-- Resolution of the components `rest` from the entry `cur`. A symbolic link
met on the way is handed, with what remains, to `onLink`; a link that is the
last component is handed over only when `follow` is set. -/
def FS.walkSeg (fs : FS) (follow : Bool) (onLink : Path → Except Errno Path) :
    Path → List String → Except Errno Path
  | cur, [] => .ok cur
  | cur, name :: rest =>
    match fs.lookupIn cur name with
    | .error errno => .error errno
    | .ok nxt =>
      if (fs.info nxt).fileType = FileType.symlink ∧ (rest ≠ [] ∨ follow = true) then
        onLink (fs.target nxt ++ rest)
      else fs.walkSeg follow onLink nxt rest

/-- Resolution of a path from the root, following at most `n` symbolic links
(`ELOOP` beyond that). -/
def FS.walk (fs : FS) (follow : Bool) : Nat → Path → Except Errno Path
  | 0, p =>
    if [] ∈ fs.paths then fs.walkSeg follow (fun _ => .error .ELOOP) [] p
    else .error .ENOENT
  | n + 1, p =>
    if [] ∈ fs.paths then fs.walkSeg follow (fun q => fs.walk follow n q) [] p
    else .error .ENOENT

/-- The entry a path names, a final symbolic link followed (as `stat` and `open`
resolve it). The kernel follows at most 40 links. -/
def FS.realpath (fs : FS) (p : Path) : Except Errno Path :=
  match fs.fault p with
  | some errno => .error errno
  | none => fs.walk true 40 p

/-- The entry a path names, a final symbolic link not followed (as `unlink` and
`rmdir` resolve it). -/
def FS.lpath (fs : FS) (p : Path) : Except Errno Path :=
  match fs.fault p with
  | some errno => .error errno
  | none => fs.walk false 40 p

/-- The function `os.Stat`. -/
def FS.Stat (fs : FS) (name : Path) : Except GoError FileInfo :=
  match fs.realpath name with
  | .ok c => .ok (fs.info c)
  | .error errno => .error (.pathError "stat" name errno)

/-- The function `os.IsNotExist`. -/
def IsNotExist : Option GoError → Bool
  | some (.pathError _ _ .ENOENT) => true
  | _ => false

/-- The error of a Go result pair. -/
def errOf {α : Type} : Except GoError α → Option GoError
  | .ok _ => none
  | .error err => some err

/-- The function `FileExists`, lines 39 to 49. -/
def FileExists (fs : FS) (filename : Path) : Bool :=
  let res := fs.Stat filename
  if IsNotExist (errOf res) then false
  else
    match res with
    | .ok info => if !info.IsDir then true else false
    | .error _ => false

/-- An open `*os.File`: the path it was opened at, the entry that path named and
what was recorded for it. -/
structure File where
  name : Path
  real : Path
  info : FileInfo

/-- The function `os.Open`: resolution, then the read permission. -/
def FS.Open (fs : FS) (name : Path) : Except GoError File :=
  match fs.realpath name with
  | .error errno => .error (.pathError "open" name errno)
  | .ok c =>
    if (fs.info c).readable then .ok ⟨name, c, fs.info c⟩
    else .error (.pathError "open" name .EACCES)

/-- The names of the entries directly inside a directory. -/
def FS.childNames (fs : FS) (dir : Path) : List String :=
  (fs.paths.filterMap fun q =>
    if q.dropLast = dir then q.getLast? else none).dedup

/-- The method `File.Readdirnames(-1)`: all names, or an error when the file is
not a directory. -/
def File.Readdirnames (fs : FS) (d : File) : Except GoError (List String) :=
  if d.info.IsDir then .ok (fs.childNames d.real)
  else .error (.pathError "readdirent" d.name .ENOTDIR)

/-- The function `os.Remove`, `unlink` then `rmdir` on the entry the path names:
it fails when the path does not resolve, on the root, when the directory
holding the entry is not writable, and on a directory that is not empty. -/
def FS.Remove (fs : FS) (p : Path) : FS × Option GoError :=
  match fs.lpath p with
  | .error errno => (fs, some (.pathError "remove" p errno))
  | .ok c =>
    if c = [] then (fs, some (.pathError "remove" p .EBUSY))
    else if (fs.info (parentDir c)).writable then
      if fs.paths.any (strictlyUnder c) then (fs, some (.pathError "remove" p .ENOTEMPTY))
      else ({ fs with paths := fs.paths.filter fun q => decide (q ≠ c) }, none)
    else (fs, some (.pathError "remove" p .EACCES))

/-- Whether the entry `r` can be unlinked from the directory holding it: that
directory is writable and searchable, and `r` is not the root. -/
def FS.canUnlink (fs : FS) (r : Path) : Bool :=
  decide (r ≠ []) && (fs.info (parentDir r)).writable && (fs.info (parentDir r)).searchable

/-- Whether `RemoveAll` can open the entry `a` to list it: a readable directory
inside a searchable one. -/
def FS.canEnter (fs : FS) (a : Path) : Bool :=
  (fs.info a).IsDir && (fs.info a).readable &&
    (decide (a = []) || (fs.info (parentDir a)).searchable)

/-- Whether the walk of `RemoveAll` from `top` gets to the entry `r`: every
directory from `top` down to the one holding `r` can be entered. -/
def FS.reached (fs : FS) (top r : Path) : Bool :=
  fs.paths.all fun a => !(under top a && strictlyUnder a r) || fs.canEnter a

/-- Whether `RemoveAll` from `top` cannot unlink the entry `r`. -/
def FS.blocked (fs : FS) (top r : Path) : Bool :=
  !(fs.reached top r && fs.canUnlink r)

/-- Whether `RemoveAll` from `top` leaves the entry `q` behind: something at or
beneath `q` cannot be unlinked. -/
def FS.survives (fs : FS) (top q : Path) : Bool :=
  fs.paths.any fun r => under q r && fs.blocked top r

/-- The entry whose error `RemoveAll` reports: from `s`, which is left behind, it
goes down into the first entry left behind of each directory it can enter. -/
def FS.failing (fs : FS) (top : Path) : Nat → Path → Path
  | 0, s => s
  | n + 1, s =>
    if fs.canEnter s then
      match (fs.childNames s).find? fun c => fs.survives top (s ++ [c]) with
      | some c => fs.failing top n (s ++ [c])
      | none => s
    else s

/-- The error `RemoveAll` reports for the entry it fails on, `shown` being the
path under which the caller named that entry: the error of opening it when it
is a directory that cannot be entered or lies in a directory that cannot be
searched, the error of unlinking it otherwise. -/
def FS.failure (fs : FS) (s shown : Path) : GoError :=
  if fs.canEnter s then
    .pathError "unlinkat" shown (if s = [] then .EBUSY else .EACCES)
  else if (fs.info s).IsDir || !(fs.info (parentDir s)).searchable then
    .pathError "openfdat" shown .EACCES
  else .pathError "unlinkat" shown .EACCES

/-- The recursive part of `os.RemoveAll` on the entry `top`, named `shown` by the
caller: every entry at or beneath `top` that can be unlinked is removed, the
others are left with the directories that hold them, and the first error met
is returned. -/
def FS.clear (fs : FS) (top shown : Path) : FS × Option GoError :=
  let fs1 : FS :=
    { fs with paths := fs.paths.filter fun q => !under top q || fs.survives top q }
  if fs.survives top top then
    let s := fs.failing top fs.paths.length top
    (fs1, some (fs.failure s (shown ++ s.drop top.length)))
  else (fs1, none)

/-- The function `os.RemoveAll`. It first tries `Remove`, and is done when that
works or the path does not exist; otherwise it opens the directory part of the
path and clears the entry from there. -/
def FS.RemoveAll (fs : FS) (p : Path) : FS × Option GoError :=
  match fs.Remove p with
  | (fs1, none) => (fs1, none)
  | (_, some err) =>
    if IsNotExist (some err) then (fs, none)
    else
      match p.getLast? with
      | none => fs.clear [] []
      | some base =>
        match fs.Open (parentDir p) with
        | .error err1 => if IsNotExist (some err1) then (fs, none) else (fs, some err1)
        | .ok parent =>
          if parent.info.IsDir then
            if parent.real ++ [base] ∈ fs.paths then fs.clear (parent.real ++ [base]) p
            else if parent.info.searchable then (fs, none)
            else (fs, some (.pathError "openfdat" p .EACCES))
          else (fs, some (.pathError "unlinkat" p .ENOTDIR))

/-- A removal performed by `RemoveDir` and the error it returned. -/
inductive RmCall where
  | removeAll (path : Path) (res : Option GoError)
  | remove (path : Path) (res : Option GoError)
  deriving DecidableEq, Repr

/-- The error a removal returned. -/
def RmCall.res : RmCall → Option GoError
  | .removeAll _ res => res
  | .remove _ res => res

/-- What a call of `RemoveDir` yields: the error returned, the file system
afterwards and the removals performed, in order. -/
structure RmOutcome where
  err : Option GoError
  fs : FS
  log : List RmCall

/-- The loop of `RemoveDir` over the names, lines 75 to 80. -/
def removeChildren (dir : Path) : FS → List String → RmOutcome
  | fs, [] => ⟨none, fs, []⟩
  | fs, name :: rest =>
    match fs.RemoveAll (Join dir name) with
    | (fs1, some err) => ⟨some err, fs1, [.removeAll (Join dir name) (some err)]⟩
    | (fs1, none) =>
      let r := removeChildren dir fs1 rest
      ⟨r.err, r.fs, .removeAll (Join dir name) none :: r.log⟩

/-- The function `RemoveDir`, lines 65 to 86. The deferred `d.Close()` changes
nothing that is modelled. -/
def RemoveDir (fs : FS) (dir : Path) : RmOutcome :=
  match fs.Open dir with
  | .error err => ⟨some err, fs, []⟩
  | .ok d =>
    match d.Readdirnames fs with
    | .error err => ⟨some err, fs, []⟩
    | .ok names =>
      let r := removeChildren dir fs names
      match r.err with
      | some err => ⟨some err, r.fs, r.log⟩
      | none =>
        match r.fs.Remove dir with
        | (fs2, some err) =>
          ⟨some (.errorf "dir is unable to be deleted: %v" err), fs2,
            r.log ++ [.remove dir (some err)]⟩
        | (fs2, none) => ⟨none, fs2, r.log ++ [.remove dir none]⟩

/-- Whether a path is reached through directories only: every prefix of it, the
path itself included, is an existing directory, so that none is a symbolic
link. -/
def FS.plain (fs : FS) (dir : Path) : Bool :=
  dir.inits.all fun q => decide (q ∈ fs.paths) && (fs.info q).IsDir

/-- Whether a path can be walked: every prefix of it, the path itself included,
is an existing directory that can be searched. -/
def FS.passable (fs : FS) (dir : Path) : Bool :=
  dir.inits.all fun q =>
    decide (q ∈ fs.paths) && (fs.info q).IsDir && (fs.info q).searchable

/-- Whether a state is well formed: together with every entry, all its ancestors
up to the root exist and are directories. -/
def FS.wf (fs : FS) : Bool :=
  fs.paths.all fun q => q.inits.all fun p =>
    decide (p ∈ fs.paths) && (decide (p = q) || (fs.info p).IsDir)

/-- Whether nothing at or beneath a directory resists removal: every directory
there can be listed, written and searched. -/
def FS.clean (fs : FS) (dir : Path) : Bool :=
  fs.paths.all fun a =>
    !(under dir a && (fs.info a).IsDir) ||
      ((fs.info a).readable && (fs.info a).writable && (fs.info a).searchable)

/-- An example file system: a model directory with a nested subdirectory and
files, a symbolic link to it, a sibling file outside it, a device, a directory
that cannot be listed, one that cannot be written and one that cannot be
searched, each of the last two holding a file, a symbolic link to itself, a
directory `ring` whose subdirectory holds a symbolic link back to `ring` next
to a directory that cannot be written, and a path name on which the kernel
raises an error of its own. -/
def demoFS : FS where
  paths := [[], ["mnt"], ["mnt", "models"], ["mnt", "models", "a"],
    ["mnt", "models", "a", "b"], ["mnt", "models", "a", "b", "weights.bin"],
    ["mnt", "models", "config.json"], ["mnt", "other.txt"], ["mnt", "latest"],
    ["dev"], ["dev", "null"], ["locked"], ["keep"], ["keep", "held.bin"],
    ["vault"], ["vault", "key.pem"], ["loop"],
    ["ring"], ["ring", "x"], ["ring", "x", "back"], ["ring", "x", "sub"],
    ["ring", "x", "sub", "f"]]
  info := fun q =>
    if q = ["mnt", "models", "a", "b", "weights.bin"] ∨ q = ["mnt", "models", "config.json"]
        ∨ q = ["mnt", "other.txt"] ∨ q = ["keep", "held.bin"] ∨ q = ["vault", "key.pem"]
        ∨ q = ["ring", "x", "sub", "f"]
    then { fileType := .regular }
    else if q = ["mnt", "latest"] ∨ q = ["loop"] ∨ q = ["ring", "x", "back"] then
      { fileType := .symlink }
    else if q = ["dev", "null"] then { fileType := .charDevice }
    else if q = ["locked"] then { fileType := .directory, readable := false }
    else if q = ["keep"] ∨ q = ["ring", "x", "sub"] then
      { fileType := .directory, writable := false }
    else if q = ["vault"] then { fileType := .directory, searchable := false }
    else { fileType := .directory }
  target := fun q =>
    if q = ["mnt", "latest"] then ["mnt", "models"]
    else if q = ["loop"] then ["loop"]
    else if q = ["ring", "x", "back"] then ["ring"]
    else []
  fault := fun q => if q = ["mnt", "worn"] then some .ESTALE else none

/-! ## Properties of `GetProvider` -/

theorem GetProvider_hit (sys : Sys) (st : Store) (p : Protocol) (v : Provider)
    (h : st.providers p = some v) : GetProvider sys st p = ⟨v, none, st, []⟩ := by
  simp [GetProvider, h]

theorem GetProvider_miss (sys : Sys) (st : Store) (p : Protocol)
    (h : st.providers p = none) :
    GetProvider sys st p =
      match providerSwitch sys st p with
      | .returned err trace => ⟨none, some err, st, trace⟩
      | .fellThrough st1 trace => ⟨st1.providers.index p, none, st1, trace⟩ := by
  simp [GetProvider, h]

theorem Registry.set_same (providers : Registry) (k : Protocol) (v : Provider) :
    providers.set k v k = some v := by
  simp [Registry.set]

theorem Registry.set_other (providers : Registry) (k q : Protocol) (v : Provider)
    (h : q ≠ k) : providers.set k v q = providers q := by
  simp [Registry.set, h]

theorem Registry.index_set (providers : Registry) (k : Protocol) (v : Provider) :
    (providers.set k v).index k = v := by
  simp [Registry.index, Registry.set]

/-- After a call that returned a nil error for a known protocol, or any call
that found an entry, the protocol has an entry holding the returned provider. -/
theorem GetProvider_entry_after (sys : Sys) (st : Store) (p : Protocol)
    (hp : p.known = true) (h : (GetProvider sys st p).err = none) :
    (GetProvider sys st p).store.providers p = some (GetProvider sys st p).provider := by
  cases hst : st.providers p with
  | some v => simp [GetProvider_hit sys st p v hst, hst]
  | none =>
    rw [GetProvider_miss sys st p hst] at h ⊢
    cases p with
    | GCS =>
      simp only [providerSwitch] at h ⊢
      rcases hc : sys.NewClient (gcsOptions sys) with ⟨c, _ | e⟩
      · simp [hc, Registry.set, Registry.index]
      · simp [hc] at h
    | S3 =>
      simp only [providerSwitch] at h ⊢
      rcases hc : sys.NewSession (s3Config sys) with ⟨c, _ | e⟩
      · simp [hc, Registry.set, Registry.index]
      · simp [hc] at h
    | HTTPS => simp [providerSwitch, Registry.set, Registry.index]
    | HTTP => simp [providerSwitch, Registry.set, Registry.index]
    | other s => simp [Protocol.known] at hp

/-- On a missing entry for a protocol with a case in the switch, the call either
returns the constructor's error and keeps the state, or binds the protocol to a
provider freshly allocated at or after the old free address. -/
theorem GetProvider_miss_cases (sys : Sys) (st : Store) (p : Protocol)
    (hp : p.known = true) (hst : st.providers p = none) :
    (∃ e, constructionError sys p = some e ∧
        GetProvider sys st p = ⟨none, some e, st, (GetProvider sys st p).trace⟩) ∨
    (∃ ref, constructionError sys p = none ∧
        (GetProvider sys st p).provider = some ref ∧
        (GetProvider sys st p).err = none ∧
        (GetProvider sys st p).store.providers = st.providers.set p (some ref) ∧
        st.next ≤ ref.addr ∧ ref.addr < (GetProvider sys st p).store.next ∧
        variantMatches p ref.obj = true ∧
        Event.NewProvider ref.addr ∈ (GetProvider sys st p).trace) := by
  rw [GetProvider_miss sys st p hst]
  cases p with
  | GCS =>
    simp only [providerSwitch, constructionError]
    rcases hc : sys.NewClient (gcsOptions sys) with ⟨c, _ | e⟩
    · right
      exact ⟨⟨st.next, .GCSProvider ⟨c⟩⟩, by simp [Registry.index_set, variantMatches]⟩
    · left
      exact ⟨e, by simp⟩
  | S3 =>
    simp only [providerSwitch, constructionError]
    rcases hc : sys.NewSession (s3Config sys) with ⟨c, _ | e⟩
    · right
      exact ⟨⟨st.next, .S3Provider ⟨c⟩ ⟨⟨c⟩⟩⟩, by simp [Registry.index_set, variantMatches]⟩
    · left
      exact ⟨e, by simp⟩
  | HTTPS =>
    right
    exact ⟨⟨st.next + 1, .HTTPSProvider ⟨st.next⟩⟩,
      by simp [providerSwitch, constructionError, Registry.index_set, variantMatches]⟩
  | HTTP =>
    right
    exact ⟨⟨st.next + 1, .HTTPSProvider ⟨st.next⟩⟩,
      by simp [providerSwitch, constructionError, Registry.index_set, variantMatches]⟩
  | other s => simp [Protocol.known] at hp

/-- The trace of any call holds at most one backend-client construction. -/
theorem GetProvider_trace_count (sys : Sys) (st : Store) (p : Protocol) :
    ((GetProvider sys st p).trace.filter Event.isBackendClient).length ≤ 1 := by
  cases hst : st.providers p with
  | some v => simp [GetProvider_hit sys st p v hst]
  | none =>
    rw [GetProvider_miss sys st p hst]
    cases p with
    | GCS =>
      simp only [providerSwitch]
      rcases hc : sys.NewClient (gcsOptions sys) with ⟨c, _ | e⟩ <;>
        simp [Event.isBackendClient, List.filter]
    | S3 =>
      simp only [providerSwitch]
      rcases hc : sys.NewSession (s3Config sys) with ⟨c, _ | e⟩ <;>
        simp [Event.isBackendClient, List.filter]
    | HTTPS => simp [providerSwitch, Event.isBackendClient, List.filter]
    | HTTP => simp [providerSwitch, Event.isBackendClient, List.filter]
    | other s => simp [providerSwitch]

/-- A call on an unknown protocol value: nothing happens, and the value returned
is the entry of the map when there is one, nil otherwise. -/
theorem GetProvider_other (sys : Sys) (st : Store) (s : String) :
    GetProvider sys st (.other s) =
      ⟨st.providers.index (.other s), none, st, []⟩ := by
  cases hst : st.providers (.other s) with
  | some v => simp [GetProvider_hit sys st _ v hst, Registry.index, hst]
  | none => simp [GetProvider_miss sys st _ hst, providerSwitch]

/-! ## Lower-casing -/

theorem toNat_ofNat_small (n : Nat) (h : n < 55296) : (Char.ofNat n).toNat = n := by
  have hv : n.isValidChar := Or.inl h
  simp only [Char.ofNat, hv, dite_true, Char.toNat, Char.ofNatAux]
  show (UInt32.ofNat' n _).toNat = n
  simp [UInt32.ofNat', UInt32.toNat]

/-- A rune sequence that equals a lower-case ASCII word up to ASCII case is
lower-cased to that word, whatever the table says above ASCII. -/
theorem map_lower_of_eqIgnoreAsciiCase (table : Char → Char) :
    ∀ (v w : List Char), (∀ d ∈ w, 97 ≤ d.toNat ∧ d.toNat ≤ 122) →
      eqIgnoreAsciiCase v w = true → v.map (unicodeToLower table) = w
  | [], [], _, _ => rfl
  | [], _ :: _, _, h => by simp [eqIgnoreAsciiCase] at h
  | _ :: _, [], _, h => by simp [eqIgnoreAsciiCase] at h
  | c :: cs, d :: ds, hw, h => by
    simp only [eqIgnoreAsciiCase, Bool.and_eq_true, Bool.or_eq_true, decide_eq_true_eq] at h
    obtain ⟨hcd, hrest⟩ := h
    have ih := map_lower_of_eqIgnoreAsciiCase table cs ds
      (fun x hx => hw x (List.mem_cons_of_mem _ hx)) hrest
    have hd := hw d (List.mem_cons_self _ _)
    have hhead : unicodeToLower table c = d := by
      rcases hcd with rfl | ⟨h1, h2, h3⟩
      · have h4 : ¬ (65 ≤ c.toNat ∧ c.toNat ≤ 90) := by omega
        have h5 : c.toNat < 128 := by omega
        simp [unicodeToLower, h4, h5]
      · have h5 : c.toNat < 128 := by omega
        simp only [unicodeToLower, h5, if_true, h1, h2, and_self, h3]
        exact Char.ofNat_toNat d
    simp [hhead, ih]

/-- Conversely, when the table sends no rune above ASCII to a rune of the word,
only the ASCII case variants of the word are lower-cased to it. -/
theorem eqIgnoreAsciiCase_of_map_lower (table : Char → Char) :
    ∀ (v w : List Char), (∀ c, 128 ≤ c.toNat → table c ∉ w) →
      v.map (unicodeToLower table) = w → eqIgnoreAsciiCase v w = true
  | [], [], _, _ => rfl
  | [], _ :: _, _, h => by simp at h
  | _ :: _, [], _, h => by simp at h
  | c :: cs, d :: ds, ht, h => by
    simp only [List.map_cons, List.cons.injEq] at h
    obtain ⟨hhead, hrest⟩ := h
    have ih := eqIgnoreAsciiCase_of_map_lower table cs ds
      (fun x hx hm => ht x hx (List.mem_cons_of_mem _ hm)) hrest
    simp only [eqIgnoreAsciiCase, Bool.and_eq_true, Bool.or_eq_true, decide_eq_true_eq, ih,
      and_true]
    by_cases h5 : c.toNat < 128
    · by_cases h4 : 65 ≤ c.toNat ∧ c.toNat ≤ 90
      · right
        simp only [unicodeToLower, h5, if_true, h4, and_self] at hhead
        refine ⟨h4.1, h4.2, ?_⟩
        rw [← hhead, toNat_ofNat_small _ (by omega)]
      · left
        simpa [unicodeToLower, h5, h4] using hhead
    · exfalso
      have h6 : unicodeToLower table c = table c := by simp [unicodeToLower, h5]
      apply ht c (by omega)
      rw [← h6, hhead]
      exact List.mem_cons_self _ _

theorem ToLower_eq_iff (table : Char → Char) (v w : String) :
    ToLower table v = w ↔ v.data.map (unicodeToLower table) = w.data := by
  constructor
  · intro h
    rw [← h]
    rfl
  · intro h
    cases w
    simp only [ToLower]
    congr

/-! ## The configuration built for S3 and GCS -/

theorem s3Config_forcePathStyle (sys : Sys) :
    (s3Config sys).S3ForcePathStyle =
      some (decide (∃ v, sys.LookupEnv sys.S3UseVirtualBucket = some v ∧
        ToLower sys.lowerTable v = "false")) := by
  unfold s3Config
  cases h1 : sys.LookupEnv sys.S3UseVirtualBucket <;>
    cases h2 : sys.LookupEnv sys.AWSEndpointUrl <;>
    cases h3 : sys.LookupEnv sys.AWSAnonymousCredential <;>
    simp <;> split <;> simp_all

theorem s3Config_credentials (sys : Sys) :
    (s3Config sys).Credentials =
      if (∃ v, sys.LookupEnv sys.AWSAnonymousCredential = some v ∧
        ToLower sys.lowerTable v = "true")
      then some Credentials.AnonymousCredentials else none := by
  unfold s3Config
  cases h1 : sys.LookupEnv sys.S3UseVirtualBucket <;>
    cases h2 : sys.LookupEnv sys.AWSEndpointUrl <;>
    cases h3 : sys.LookupEnv sys.AWSAnonymousCredential <;>
    simp <;> split <;> simp_all

theorem s3Config_endpoint (sys : Sys) :
    (s3Config sys).Endpoint = sys.LookupEnv sys.AWSEndpointUrl := by
  unfold s3Config
  cases h1 : sys.LookupEnv sys.S3UseVirtualBucket <;>
    cases h2 : sys.LookupEnv sys.AWSEndpointUrl <;>
    cases h3 : sys.LookupEnv sys.AWSAnonymousCredential <;>
    simp <;> split <;> simp_all

theorem s3Config_region (sys : Sys) :
    (s3Config sys).Region = some ((sys.LookupEnv sys.AWSRegion).getD "") := by
  unfold s3Config
  cases h1 : sys.LookupEnv sys.S3UseVirtualBucket <;>
    cases h2 : sys.LookupEnv sys.AWSEndpointUrl <;>
    cases h3 : sys.LookupEnv sys.AWSAnonymousCredential <;>
    simp <;> split <;> simp_all

/-- When the S3 provider has to be built, the session constructor is called
once, with the configuration `s3Config`. -/
theorem trace_newSession_iff (sys : Sys) (st : Store) (hst : st.providers .S3 = none)
    (cfg : AwsConfig) :
    Event.NewSession cfg ∈ (GetProvider sys st .S3).trace ↔ cfg = s3Config sys := by
  rw [GetProvider_miss sys st _ hst]
  simp only [providerSwitch]
  rcases hc : sys.NewSession (s3Config sys) with ⟨c, _ | e⟩ <;> simp

/-- When the GCS provider has to be built, the client constructor is called
once, with the options `gcsOptions`. -/
theorem trace_newClient_iff (sys : Sys) (st : Store) (hst : st.providers .GCS = none)
    (opts : List ClientOption) :
    Event.NewClient opts ∈ (GetProvider sys st .GCS).trace ↔ opts = gcsOptions sys := by
  rw [GetProvider_miss sys st _ hst]
  simp only [providerSwitch]
  rcases hc : sys.NewClient (gcsOptions sys) with ⟨c, _ | e⟩ <;> simp

/-- On a missing GCS or S3 entry the call reads the environment, calls the
constructor, and returns exactly the constructor's error. -/
theorem GetProvider_miss_attempt (sys : Sys) (st : Store) (p : Protocol)
    (hp : p = .GCS ∨ p = .S3) (hst : st.providers p = none) :
    (∃ ev ∈ (GetProvider sys st p).trace, ev.isEnvRead = true) ∧
    (∃ ev, constructorCall sys p = some ev ∧ ev ∈ (GetProvider sys st p).trace) ∧
    (GetProvider sys st p).err = constructionError sys p := by
  rw [GetProvider_miss sys st p hst]
  rcases hp with rfl | rfl
  · simp only [providerSwitch, constructorCall, constructionError]
    rcases hc : sys.NewClient (gcsOptions sys) with ⟨c, _ | e⟩ <;>
      simp [Event.isEnvRead]
  · simp only [providerSwitch, constructorCall, constructionError]
    rcases hc : sys.NewSession (s3Config sys) with ⟨c, _ | e⟩ <;>
      simp [Event.isEnvRead]

/-- A call either keeps the registry or binds the requested protocol, known and
so far missing, to a non-nil provider of the matching variant. -/
theorem GetProvider_store_cases (sys : Sys) (st : Store) (p : Protocol) :
    (GetProvider sys st p).store.providers = st.providers ∨
    (st.providers p = none ∧ p.known = true ∧
      ∃ ref, (GetProvider sys st p).store.providers = st.providers.set p (some ref) ∧
        variantMatches p ref.obj = true) := by
  cases hst : st.providers p with
  | some v => simp [GetProvider_hit sys st p v hst]
  | none =>
    cases hp : p.known with
    | false =>
      cases p with
      | other s => simp [GetProvider_other]
      | GCS => simp [Protocol.known] at hp
      | S3 => simp [Protocol.known] at hp
      | HTTPS => simp [Protocol.known] at hp
      | HTTP => simp [Protocol.known] at hp
    | true =>
      rcases GetProvider_miss_cases sys st p hp hst with ⟨e, _, he⟩ | ⟨ref, _, _, _, h3, _, _, h6, _⟩
      · left
        rw [he]
      · right
        exact ⟨rfl, rfl, ref, h3, h6⟩

theorem RegistryInv_step (sys : Sys) (st : Store) (p : Protocol)
    (h : RegistryInv st.providers) : RegistryInv (GetProvider sys st p).store.providers := by
  rcases GetProvider_store_cases sys st p with h1 | ⟨_, hk, ref, h1, hv⟩
  · rw [h1]
    exact h
  · rw [h1]
    intro q v hq
    by_cases hqp : q = p
    · subst hqp
      rw [Registry.set_same] at hq
      cases hq
      exact ⟨hk, ref, rfl, hv⟩
    · rw [Registry.set_other _ _ _ _ hqp] at hq
      exact h q v hq

theorem entry_kept_step (sys : Sys) (st : Store) (p q : Protocol) (v : Provider)
    (h : st.providers q = some v) : (GetProvider sys st p).store.providers q = some v := by
  rcases GetProvider_store_cases sys st p with h1 | ⟨hn, _, ref, h1, _⟩
  · rw [h1]
    exact h
  · rw [h1]
    by_cases hqp : q = p
    · subst hqp
      rw [hn] at h
      cases h
    · rw [Registry.set_other _ _ _ _ hqp]
      exact h

theorem RegistryInv_runCalls (calls : List (Sys × Protocol)) :
    ∀ st : Store, RegistryInv st.providers → RegistryInv (runCalls st calls).providers := by
  induction calls with
  | nil => intro st h; exact h
  | cons c rest ih =>
    intro st h
    obtain ⟨sys, p⟩ := c
    exact ih _ (RegistryInv_step sys st p h)

theorem entry_kept_runCalls (calls : List (Sys × Protocol)) (q : Protocol) (v : Provider) :
    ∀ st : Store, st.providers q = some v → (runCalls st calls).providers q = some v := by
  induction calls with
  | nil => intro st h; exact h
  | cons c rest ih =>
    intro st h
    obtain ⟨sys, p⟩ := c
    exact ih _ (entry_kept_step sys st p q v h)

/-- On an allocated map, `GetProviderOnMap` is `GetProvider`: it returns, with
the same values, the same entries, the same next address and the same trace. -/
theorem GetProviderOnMap_alloc (sys : Sys) (entries : Registry) (next : Nat)
    (p : Protocol) :
    GetProviderOnMap sys (.alloc entries) next p =
      .returned (GetProvider sys ⟨entries, next⟩ p).provider
        (GetProvider sys ⟨entries, next⟩ p).err
        (.alloc (GetProvider sys ⟨entries, next⟩ p).store.providers)
        (GetProvider sys ⟨entries, next⟩ p).store.next
        (GetProvider sys ⟨entries, next⟩ p).trace := by
  cases hst : entries p with
  | some v =>
    rw [GetProvider_hit sys ⟨entries, next⟩ p v hst]
    simp [GetProviderOnMap, GoMap.lookup, hst]
  | none =>
    rw [GetProvider_miss sys ⟨entries, next⟩ p hst]
    cases p with
    | GCS =>
      simp only [GetProviderOnMap, GoMap.lookup, hst, providerSwitch]
      rcases hc : sys.NewClient (gcsOptions sys) with ⟨c, _ | e⟩ <;>
        simp [storeAndReturn, GoMap.assign, GoMap.index, GoMap.lookup, Registry.index]
    | S3 =>
      simp only [GetProviderOnMap, GoMap.lookup, hst, providerSwitch]
      rcases hc : sys.NewSession (s3Config sys) with ⟨c, _ | e⟩ <;>
        simp [storeAndReturn, GoMap.assign, GoMap.index, GoMap.lookup, Registry.index]
    | HTTPS =>
      simp [GetProviderOnMap, GoMap.lookup, hst, providerSwitch, storeAndReturn,
        GoMap.assign, GoMap.index, Registry.index]
    | HTTP =>
      simp [GetProviderOnMap, GoMap.lookup, hst, providerSwitch, storeAndReturn,
        GoMap.assign, GoMap.index, Registry.index]
    | other s =>
      simp [GetProviderOnMap, GoMap.lookup, hst, providerSwitch, GoMap.index, Registry.index]

/-- On the nil map a call for a protocol with a case in the switch never stores:
it returns the error of a failing constructor, and panics otherwise. -/
theorem GetProviderOnMap_nil (sys : Sys) (next : Nat) (p : Protocol)
    (hp : p.known = true) :
    (∃ e trace, constructionError sys p = some e ∧
      GetProviderOnMap sys .nil next p = .returned none (some e) .nil next trace) ∨
    (∃ msg next1 trace, constructionError sys p = none ∧
      GetProviderOnMap sys .nil next p = .panicked msg next1 trace) := by
  cases p with
  | GCS =>
    simp only [GetProviderOnMap, GoMap.lookup, constructionError]
    rcases hc : sys.NewClient (gcsOptions sys) with ⟨c, _ | e⟩ <;>
      simp [storeAndReturn, GoMap.assign]
  | S3 =>
    simp only [GetProviderOnMap, GoMap.lookup, constructionError]
    rcases hc : sys.NewSession (s3Config sys) with ⟨c, _ | e⟩ <;>
      simp [storeAndReturn, GoMap.assign]
  | HTTPS => simp [GetProviderOnMap, GoMap.lookup, constructionError, storeAndReturn,
      GoMap.assign]
  | HTTP => simp [GetProviderOnMap, GoMap.lookup, constructionError, storeAndReturn,
      GoMap.assign]
  | other s => simp [Protocol.known] at hp

/-- On the nil map a call for a value outside the four returns nil and nil. -/
theorem GetProviderOnMap_nil_other (sys : Sys) (next : Nat) (s : String) :
    GetProviderOnMap sys .nil next (.other s) = .returned none none .nil next [] := by
  simp [GetProviderOnMap, GoMap.lookup, GoMap.index]

/-! ## The claims about `GetProvider` -/

/-- C1: when a first `GetProvider` call for a protocol with a case in the switch
returns a nil error, a second call for the same protocol on the resulting
registry, in any environment, returns the very same provider instance with a
nil error, reads no environment variable and constructs nothing, leaves the
registry unchanged, and the two calls together construct at most one backend
client. -/
theorem getProvider_second_call_cached (sys1 sys2 : Sys) (st : Store) (p : Protocol)
    (hp : p.known = true) (h : (GetProvider sys1 st p).err = none) :
    (GetProvider sys2 (GetProvider sys1 st p).store p).provider
        = (GetProvider sys1 st p).provider ∧
    (GetProvider sys2 (GetProvider sys1 st p).store p).err = none ∧
    (GetProvider sys2 (GetProvider sys1 st p).store p).trace = [] ∧
    (GetProvider sys2 (GetProvider sys1 st p).store p).store
        = (GetProvider sys1 st p).store ∧
    (((GetProvider sys1 st p).trace ++
        (GetProvider sys2 (GetProvider sys1 st p).store p).trace).filter
          Event.isBackendClient).length ≤ 1 := by
  have hent := GetProvider_entry_after sys1 st p hp h
  have hhit := GetProvider_hit sys2 _ p _ hent
  rw [hhit]
  refine ⟨rfl, rfl, rfl, rfl, ?_⟩
  simpa using GetProvider_trace_count sys1 st p

/-- Witness of C1: two S3 calls from the empty registry in the example process. -/
theorem getProvider_second_call_cached_witness :
    Protocol.known .S3 = true ∧
    (GetProvider (demoSys demoEnv) ⟨Registry.empty, 0⟩ .S3).err = none ∧
    (GetProvider (demoSys emptyEnv)
        (GetProvider (demoSys demoEnv) ⟨Registry.empty, 0⟩ .S3).store .S3).provider
      = (GetProvider (demoSys demoEnv) ⟨Registry.empty, 0⟩ .S3).provider ∧
    (GetProvider (demoSys emptyEnv)
        (GetProvider (demoSys demoEnv) ⟨Registry.empty, 0⟩ .S3).store .S3).trace = [] :=
  have h1 : Protocol.known .S3 = true := rfl
  have h2 : (GetProvider (demoSys demoEnv) ⟨Registry.empty, 0⟩ .S3).err = none := by decide
  have h := getProvider_second_call_cached (demoSys demoEnv) (demoSys emptyEnv)
    ⟨Registry.empty, 0⟩ .S3 h1 h2
  ⟨h1, h2, h.1, h.2.2.1⟩

/-- C2 as stated fails: the nil map has no entry for GCS and the constructor
succeeds, yet `GetProvider` does not return; the assignment into the nil map
panics. -/
theorem getProvider_nil_map_panics :
    Protocol.known .GCS = true ∧ GoMap.nil.lookup .GCS = none ∧
    constructionError (demoSys demoEnv) .GCS = none ∧
    GetProviderOnMap (demoSys demoEnv) .nil 7 .GCS =
      .panicked "assignment to entry in nil map" 8
        [Event.LookupEnv "GOOGLE_APPLICATION_CREDENTIALS",
         Event.NewClient [ClientOption.WithoutAuthentication], Event.NewProvider 7] ∧
    ¬ ∃ provider err providers next trace,
      GetProviderOnMap (demoSys demoEnv) .nil 7 .GCS
        = .returned provider err providers next trace := by
  refine ⟨rfl, rfl, rfl, rfl, ?_⟩
  rintro ⟨provider, err, providers, next, trace, h⟩
  have h2 : GetProviderOnMap (demoSys demoEnv) .nil 7 .GCS =
      .panicked "assignment to entry in nil map" 8
        [Event.LookupEnv "GOOGLE_APPLICATION_CREDENTIALS",
         Event.NewClient [ClientOption.WithoutAuthentication], Event.NewProvider 7] := rfl
  rw [h2] at h
  cases h

/-- C2, amended: when a registry map that is not nil has no entry for a protocol
with a case in the switch and the backend constructor succeeds, `GetProvider`
returns a non-nil provider allocated by this call (its address was free before
the call), with a nil error, and the registry afterwards is an allocated map
that binds the protocol to that very provider and is unchanged at every other
key. -/
theorem getProvider_constructs_and_stores (sys : Sys) (providers : GoMap) (next : Nat)
    (p : Protocol) (hp : p.known = true) (hnil : providers ≠ .nil)
    (hst : providers.lookup p = none) (hok : constructionError sys p = none) :
    ∃ ref providers1 next1 trace,
      GetProviderOnMap sys providers next p
        = .returned (some ref) none providers1 next1 trace ∧
      next ≤ ref.addr ∧ ref.addr < next1 ∧
      Event.NewProvider ref.addr ∈ trace ∧
      variantMatches p ref.obj = true ∧
      providers1 ≠ .nil ∧
      providers1.lookup p = some (some ref) ∧
      ∀ q, q ≠ p → providers1.lookup q = providers.lookup q := by
  cases providers with
  | nil => exact absurd rfl hnil
  | alloc entries =>
    rw [GetProviderOnMap_alloc]
    have hst2 : (⟨entries, next⟩ : Store).providers p = none := hst
    rcases GetProvider_miss_cases sys ⟨entries, next⟩ p hp hst2 with
      ⟨e, he, _⟩ | ⟨ref, _, h1, h2, h3, h4, h5, h6, h7⟩
    · rw [hok] at he
      cases he
    · refine ⟨ref, .alloc (GetProvider sys ⟨entries, next⟩ p).store.providers,
        (GetProvider sys ⟨entries, next⟩ p).store.next,
        (GetProvider sys ⟨entries, next⟩ p).trace, ?_, h4, h5, h7, h6, ?_, ?_, ?_⟩
      · rw [h1, h2]
      · intro hc
        cases hc
      · simp only [GoMap.lookup]
        rw [h3]
        exact Registry.set_same _ _ _
      · intro q hq
        simp only [GoMap.lookup]
        rw [h3]
        exact Registry.set_other _ _ _ _ hq

/-- Witness of C2, amended: the first GCS call on the empty allocated map. -/
theorem getProvider_constructs_and_stores_witness :
    Protocol.known .GCS = true ∧ GoMap.alloc Registry.empty ≠ .nil ∧
    (GoMap.alloc Registry.empty).lookup .GCS = none ∧
    constructionError (demoSys demoEnv) .GCS = none ∧
    ∃ ref providers1 next1 trace,
      GetProviderOnMap (demoSys demoEnv) (.alloc Registry.empty) 7 .GCS
        = .returned (some ref) none providers1 next1 trace ∧
      7 ≤ ref.addr ∧ providers1.lookup .GCS = some (some ref) :=
  have hnil : GoMap.alloc Registry.empty ≠ .nil := fun hc => by cases hc
  have h := getProvider_constructs_and_stores (demoSys demoEnv) (.alloc Registry.empty) 7
    .GCS rfl hnil rfl rfl
  ⟨rfl, hnil, rfl, rfl,
    h.elim fun ref h1 => h1.elim fun providers1 h2 => h2.elim fun next1 h3 =>
      h3.elim fun trace h4 =>
        ⟨ref, providers1, next1, trace, h4.1, h4.2.1, h4.2.2.2.2.2.2.1⟩⟩

/-- C3 as stated fails: on a registry that holds an entry under a protocol value
outside the four, `GetProvider` for that value returns the entry, a non-nil
provider. -/
theorem getProvider_unknown_not_always_nil :
    Protocol.known (.other "pvc://") = false ∧
    (GetProvider (demoSys emptyEnv) ⟨staleRegistry, 2⟩ (.other "pvc://")).provider
      = some ⟨0, .HTTPSProvider ⟨1⟩⟩ ∧
    (GetProvider (demoSys emptyEnv) ⟨staleRegistry, 2⟩ (.other "pvc://")).provider
      ≠ none := by
  refine ⟨rfl, ?_, ?_⟩
  · decide
  · decide

/-- C3, amended: for a protocol value outside the four and a registry with no
entry for it, `GetProvider` returns a nil provider and a nil error, reads and
constructs nothing and leaves the state unchanged, so that no key is added. -/
theorem getProvider_unknown_absent (sys : Sys) (st : Store) (p : Protocol)
    (hp : p.known = false) (hst : st.providers p = none) :
    (GetProvider sys st p).provider = none ∧
    (GetProvider sys st p).err = none ∧
    (GetProvider sys st p).trace = [] ∧
    (GetProvider sys st p).store = st ∧
    (GetProvider sys st p).store.providers p = none := by
  cases p with
  | other s =>
    rw [GetProvider_other]
    simp [Registry.index, hst]
  | GCS => simp [Protocol.known] at hp
  | S3 => simp [Protocol.known] at hp
  | HTTPS => simp [Protocol.known] at hp
  | HTTP => simp [Protocol.known] at hp

/-- Witness of C3, amended: an unknown value on the empty registry. -/
theorem getProvider_unknown_absent_witness :
    Protocol.known (.other "pvc://") = false ∧
    Registry.empty (.other "pvc://") = none ∧
    (GetProvider (demoSys demoEnv) ⟨Registry.empty, 0⟩ (.other "pvc://")).provider = none ∧
    (GetProvider (demoSys demoEnv) ⟨Registry.empty, 0⟩ (.other "pvc://")).err = none :=
  have h := getProvider_unknown_absent (demoSys demoEnv) ⟨Registry.empty, 0⟩
    (.other "pvc://") rfl rfl
  ⟨rfl, rfl, h.1, h.2.1⟩

/-- C4: when the registry has no entry for GCS or S3 and the backend constructor
fails with an error, `GetProvider` returns a nil provider and exactly that
error and leaves the state unchanged, with no entry stored; a following call
for the same protocol, in any environment, reads the environment again, calls
the constructor again and returns what that constructor answers. -/
theorem getProvider_failure_not_cached (sys : Sys) (st : Store) (p : Protocol)
    (hp : p = .GCS ∨ p = .S3) (hst : st.providers p = none) (e : GoError)
    (he : constructionError sys p = some e) :
    (GetProvider sys st p).provider = none ∧
    (GetProvider sys st p).err = some e ∧
    (GetProvider sys st p).store = st ∧
    (GetProvider sys st p).store.providers p = none ∧
    ∀ sys2 : Sys,
      (∃ ev ∈ (GetProvider sys2 (GetProvider sys st p).store p).trace,
        ev.isEnvRead = true) ∧
      (∃ ev, constructorCall sys2 p = some ev ∧
        ev ∈ (GetProvider sys2 (GetProvider sys st p).store p).trace) ∧
      (GetProvider sys2 (GetProvider sys st p).store p).err = constructionError sys2 p := by
  have hk : p.known = true := by rcases hp with rfl | rfl <;> rfl
  rcases GetProvider_miss_cases sys st p hk hst with ⟨e1, he1, hr⟩ | ⟨ref, hok, _⟩
  · rw [he] at he1
    cases he1
    have hs : (GetProvider sys st p).store = st := by rw [hr]
    refine ⟨by rw [hr], by rw [hr], hs, by rw [hs]; exact hst, ?_⟩
    intro sys2
    rw [hs]
    exact GetProvider_miss_attempt sys2 st p hp hst
  · rw [he] at hok
    cases hok

/-- Witness of C4: an S3 call with no region set, which the session
constructor rejects. -/
theorem getProvider_failure_not_cached_witness :
    Registry.empty .S3 = none ∧
    constructionError (demoSys emptyEnv) .S3 = some (GoError.sdk "MissingRegion") ∧
    (GetProvider (demoSys emptyEnv) ⟨Registry.empty, 0⟩ .S3).provider = none ∧
    (GetProvider (demoSys emptyEnv) ⟨Registry.empty, 0⟩ .S3).err
      = some (GoError.sdk "MissingRegion") :=
  have he : constructionError (demoSys emptyEnv) .S3 = some (GoError.sdk "MissingRegion") := by
    decide
  have h := getProvider_failure_not_cached (demoSys emptyEnv) ⟨Registry.empty, 0⟩ .S3
    (Or.inr rfl) rfl _ he
  ⟨rfl, he, h.1, h.2.1⟩

/-- C5: when `GetProvider` has to build the S3 provider, the configuration the
session is built from has `S3ForcePathStyle` true if and only if the
use-virtual-bucket variable is set and its lower-cased value is `"false"`, and
false otherwise, in particular when the variable is unset. Every ASCII case
variant of `"false"` selects path style, and when the case table sends no rune
above ASCII to a letter of `"false"`, only these variants do. -/
theorem s3_path_style_iff (sys : Sys) (st : Store) (hst : st.providers .S3 = none)
    (cfg : AwsConfig) (hcfg : Event.NewSession cfg ∈ (GetProvider sys st .S3).trace) :
    Event.NewSession (s3Config sys) ∈ (GetProvider sys st .S3).trace ∧
    (cfg.S3ForcePathStyle = some true ↔
      ∃ v, sys.LookupEnv sys.S3UseVirtualBucket = some v ∧
        ToLower sys.lowerTable v = "false") ∧
    (cfg.S3ForcePathStyle = some false ↔
      ¬ ∃ v, sys.LookupEnv sys.S3UseVirtualBucket = some v ∧
        ToLower sys.lowerTable v = "false") ∧
    (sys.LookupEnv sys.S3UseVirtualBucket = none → cfg.S3ForcePathStyle = some false) ∧
    (∀ v, sys.LookupEnv sys.S3UseVirtualBucket = some v →
      eqIgnoreAsciiCase v.data "false".data = true → cfg.S3ForcePathStyle = some true) ∧
    ((∀ c : Char, 128 ≤ c.toNat → sys.lowerTable c ∉ "false".data) →
      (cfg.S3ForcePathStyle = some true ↔
        ∃ v, sys.LookupEnv sys.S3UseVirtualBucket = some v ∧
          eqIgnoreAsciiCase v.data "false".data = true)) := by
  have hc : cfg = s3Config sys := (trace_newSession_iff sys st hst cfg).1 hcfg
  subst hc
  have hT : (s3Config sys).S3ForcePathStyle = some true ↔
      ∃ v, sys.LookupEnv sys.S3UseVirtualBucket = some v ∧
        ToLower sys.lowerTable v = "false" := by
    rw [s3Config_forcePathStyle]
    simp
  have hF : (s3Config sys).S3ForcePathStyle = some false ↔
      ¬ ∃ v, sys.LookupEnv sys.S3UseVirtualBucket = some v ∧
        ToLower sys.lowerTable v = "false" := by
    rw [s3Config_forcePathStyle]
    simp
  have hlow : ∀ d ∈ "false".data, 97 ≤ d.toNat ∧ d.toNat ≤ 122 := by decide
  refine ⟨(trace_newSession_iff sys st hst _).2 rfl, hT, hF, ?_, ?_, ?_⟩
  · intro hn
    rw [hF]
    rintro ⟨v, hv, _⟩
    rw [hn] at hv
    cases hv
  · intro v hv hcase
    rw [hT]
    exact ⟨v, hv, (ToLower_eq_iff _ _ _).2
      (map_lower_of_eqIgnoreAsciiCase _ _ _ hlow hcase)⟩
  · intro htab
    rw [hT]
    constructor
    · rintro ⟨v, hv, hl⟩
      exact ⟨v, hv, eqIgnoreAsciiCase_of_map_lower _ _ _ htab ((ToLower_eq_iff _ _ _).1 hl)⟩
    · rintro ⟨v, hv, hcase⟩
      exact ⟨v, hv, (ToLower_eq_iff _ _ _).2
        (map_lower_of_eqIgnoreAsciiCase _ _ _ hlow hcase)⟩

/-- Witness of C5: the variable set to `FALSE` gives path style. -/
theorem s3_path_style_iff_witness :
    Registry.empty .S3 = none ∧
    Event.NewSession (s3Config (demoSys demoEnv))
      ∈ (GetProvider (demoSys demoEnv) ⟨Registry.empty, 0⟩ .S3).trace ∧
    (demoSys demoEnv).LookupEnv (demoSys demoEnv).S3UseVirtualBucket = some "FALSE" ∧
    eqIgnoreAsciiCase "FALSE".data "false".data = true ∧
    (s3Config (demoSys demoEnv)).S3ForcePathStyle = some true :=
  have hcfg : Event.NewSession (s3Config (demoSys demoEnv))
      ∈ (GetProvider (demoSys demoEnv) ⟨Registry.empty, 0⟩ .S3).trace := by decide
  have hv : (demoSys demoEnv).LookupEnv (demoSys demoEnv).S3UseVirtualBucket
      = some "FALSE" := by decide
  have hcase : eqIgnoreAsciiCase "FALSE".data "false".data = true := by decide
  have h := s3_path_style_iff (demoSys demoEnv) ⟨Registry.empty, 0⟩ rfl _ hcfg
  ⟨rfl, hcfg, hv, hcase, h.2.2.2.2.1 "FALSE" hv hcase⟩

/-- C6: when `GetProvider` has to build the S3 provider, the configuration the
session is built from carries the anonymous credentials if and only if the
anonymous-credential variable is set and its lower-cased value is `"true"`, and
has no credentials set otherwise; every ASCII case variant of `"true"` selects
them, and only these do when the case table sends no rune above ASCII to a
letter of `"true"`. Independently the endpoint is the value of the
endpoint-override variable when that variable is set and is unset otherwise. -/
theorem s3_credentials_and_endpoint (sys : Sys) (st : Store)
    (hst : st.providers .S3 = none)
    (cfg : AwsConfig) (hcfg : Event.NewSession cfg ∈ (GetProvider sys st .S3).trace) :
    (cfg.Credentials = some Credentials.AnonymousCredentials ↔
      ∃ v, sys.LookupEnv sys.AWSAnonymousCredential = some v ∧
        ToLower sys.lowerTable v = "true") ∧
    (cfg.Credentials = none ↔
      ¬ ∃ v, sys.LookupEnv sys.AWSAnonymousCredential = some v ∧
        ToLower sys.lowerTable v = "true") ∧
    (sys.LookupEnv sys.AWSAnonymousCredential = none → cfg.Credentials = none) ∧
    (∀ v, sys.LookupEnv sys.AWSAnonymousCredential = some v →
      eqIgnoreAsciiCase v.data "true".data = true →
      cfg.Credentials = some Credentials.AnonymousCredentials) ∧
    ((∀ c : Char, 128 ≤ c.toNat → sys.lowerTable c ∉ "true".data) →
      (cfg.Credentials = some Credentials.AnonymousCredentials ↔
        ∃ v, sys.LookupEnv sys.AWSAnonymousCredential = some v ∧
          eqIgnoreAsciiCase v.data "true".data = true)) ∧
    (∀ endpoint, sys.LookupEnv sys.AWSEndpointUrl = some endpoint ↔
      cfg.Endpoint = some endpoint) ∧
    (sys.LookupEnv sys.AWSEndpointUrl = none ↔ cfg.Endpoint = none) := by
  have hc : cfg = s3Config sys := (trace_newSession_iff sys st hst cfg).1 hcfg
  subst hc
  have hT : (s3Config sys).Credentials = some Credentials.AnonymousCredentials ↔
      ∃ v, sys.LookupEnv sys.AWSAnonymousCredential = some v ∧
        ToLower sys.lowerTable v = "true" := by
    rw [s3Config_credentials]
    split <;> simp_all
  have hF : (s3Config sys).Credentials = none ↔
      ¬ ∃ v, sys.LookupEnv sys.AWSAnonymousCredential = some v ∧
        ToLower sys.lowerTable v = "true" := by
    rw [s3Config_credentials]
    split <;> simp_all
  have hlow : ∀ d ∈ "true".data, 97 ≤ d.toNat ∧ d.toNat ≤ 122 := by decide
  refine ⟨hT, hF, ?_, ?_, ?_, ?_, ?_⟩
  · intro hn
    rw [hF]
    rintro ⟨v, hv, _⟩
    rw [hn] at hv
    cases hv
  · intro v hv hcase
    rw [hT]
    exact ⟨v, hv, (ToLower_eq_iff _ _ _).2
      (map_lower_of_eqIgnoreAsciiCase _ _ _ hlow hcase)⟩
  · intro htab
    rw [hT]
    constructor
    · rintro ⟨v, hv, hl⟩
      exact ⟨v, hv, eqIgnoreAsciiCase_of_map_lower _ _ _ htab ((ToLower_eq_iff _ _ _).1 hl)⟩
    · rintro ⟨v, hv, hcase⟩
      exact ⟨v, hv, (ToLower_eq_iff _ _ _).2
        (map_lower_of_eqIgnoreAsciiCase _ _ _ hlow hcase)⟩
  · intro endpoint
    rw [s3Config_endpoint]
  · rw [s3Config_endpoint]

/-- Witness of C6: the variable set to `True`, no endpoint override. -/
theorem s3_credentials_and_endpoint_witness :
    Registry.empty .S3 = none ∧
    Event.NewSession (s3Config (demoSys demoEnv))
      ∈ (GetProvider (demoSys demoEnv) ⟨Registry.empty, 0⟩ .S3).trace ∧
    (s3Config (demoSys demoEnv)).Credentials = some Credentials.AnonymousCredentials ∧
    (s3Config (demoSys demoEnv)).Endpoint = none :=
  have hcfg : Event.NewSession (s3Config (demoSys demoEnv))
      ∈ (GetProvider (demoSys demoEnv) ⟨Registry.empty, 0⟩ .S3).trace := by decide
  have hv : (demoSys demoEnv).LookupEnv (demoSys demoEnv).AWSAnonymousCredential
      = some "True" := by decide
  have hcase : eqIgnoreAsciiCase "True".data "true".data = true := by decide
  have he : (demoSys demoEnv).LookupEnv (demoSys demoEnv).AWSEndpointUrl = none := by decide
  have h := s3_credentials_and_endpoint (demoSys demoEnv) ⟨Registry.empty, 0⟩ rfl _ hcfg
  ⟨rfl, hcfg, h.2.2.2.1 "True" hv hcase, h.2.2.2.2.2.2.1 he⟩

/-- C7: when `GetProvider` has to build the GCS provider, the client
constructor is called with no option if and only if the credential-path
variable is present, whatever its value, and with the without-authentication
option if and only if the variable is absent; the error `GetProvider` returns
is exactly the error of that constructor call, and the provider is nil exactly
when there is such an error. -/
theorem gcs_options_iff (sys : Sys) (st : Store) (hst : st.providers .GCS = none)
    (opts : List ClientOption)
    (hopts : Event.NewClient opts ∈ (GetProvider sys st .GCS).trace) :
    Event.NewClient (gcsOptions sys) ∈ (GetProvider sys st .GCS).trace ∧
    (opts = [] ↔ ∃ v, sys.LookupEnv sys.GCSCredentialEnvKey = some v) ∧
    (opts = [ClientOption.WithoutAuthentication] ↔
      sys.LookupEnv sys.GCSCredentialEnvKey = none) ∧
    (GetProvider sys st .GCS).err = (sys.NewClient opts).2 ∧
    ((GetProvider sys st .GCS).provider = none ↔ (sys.NewClient opts).2 ≠ none) := by
  have hc : opts = gcsOptions sys := (trace_newClient_iff sys st hst opts).1 hopts
  subst hc
  refine ⟨hopts, ?_, ?_, ?_, ?_⟩
  · unfold gcsOptions
    cases sys.LookupEnv sys.GCSCredentialEnvKey <;> simp
  · unfold gcsOptions
    cases sys.LookupEnv sys.GCSCredentialEnvKey <;> simp
  · exact (GetProvider_miss_attempt sys st .GCS (Or.inl rfl) hst).2.2
  · rcases GetProvider_miss_cases sys st .GCS rfl hst with ⟨e, he, hr⟩ | ⟨ref, hok, h1, _⟩
    · simp only [constructionError] at he
      rw [hr, he]
      simp
    · simp only [constructionError] at hok
      rw [h1, hok]
      simp

/-- Witness of C7: no credential path in the environment. -/
theorem gcs_options_iff_witness :
    Registry.empty .GCS = none ∧
    Event.NewClient [ClientOption.WithoutAuthentication]
      ∈ (GetProvider (demoSys demoEnv) ⟨Registry.empty, 0⟩ .GCS).trace ∧
    (demoSys demoEnv).LookupEnv (demoSys demoEnv).GCSCredentialEnvKey = none ∧
    (GetProvider (demoSys demoEnv) ⟨Registry.empty, 0⟩ .GCS).err = none :=
  have hopts : Event.NewClient [ClientOption.WithoutAuthentication]
      ∈ (GetProvider (demoSys demoEnv) ⟨Registry.empty, 0⟩ .GCS).trace := by decide
  have h := gcs_options_iff (demoSys demoEnv) ⟨Registry.empty, 0⟩ rfl _ hopts
  ⟨rfl, hopts, h.2.2.1.1 rfl, h.2.2.2.1⟩

/-- C10: in every registry reached from the empty map by any sequence of
`GetProvider` calls, with any protocol arguments, environments and constructor
outcomes, every key is one of the four protocols, no key is bound to a nil
provider, and the provider bound to a key has the variant that goes with it;
and an entry of such a registry is the same instance in every registry reached
by further calls. -/
theorem registry_invariant (calls : List (Sys × Protocol)) (n : Nat) :
    (∀ p v, (runCalls ⟨Registry.empty, n⟩ calls).providers p = some v →
      p.known = true ∧ ∃ ref, v = some ref ∧ variantMatches p ref.obj = true) ∧
    (∀ (more : List (Sys × Protocol)) p v,
      (runCalls ⟨Registry.empty, n⟩ calls).providers p = some v →
      (runCalls (runCalls ⟨Registry.empty, n⟩ calls) more).providers p = some v) := by
  constructor
  · apply RegistryInv_runCalls calls ⟨Registry.empty, n⟩
    intro p v h
    simp [Registry.empty] at h
  · intro more p v h
    exact entry_kept_runCalls more p v _ h

/-- Witness of C10: after an HTTPS call, an unknown value, a failing S3 call and
an HTTP call, the HTTPS entry is an `HTTPSProvider`, and it is still the same
after a further successful S3 call. -/
theorem registry_invariant_witness :
    (runCalls ⟨Registry.empty, 0⟩
      [(demoSys emptyEnv, .HTTPS), (demoSys emptyEnv, .other "pvc://"),
       (demoSys emptyEnv, .S3), (demoSys emptyEnv, .HTTP)]).providers .HTTPS
      = some (some ⟨1, .HTTPSProvider ⟨0⟩⟩) ∧
    (runCalls (runCalls ⟨Registry.empty, 0⟩
      [(demoSys emptyEnv, .HTTPS), (demoSys emptyEnv, .other "pvc://"),
       (demoSys emptyEnv, .S3), (demoSys emptyEnv, .HTTP)])
      [(demoSys demoEnv, .S3)]).providers .HTTPS
      = some (some ⟨1, .HTTPSProvider ⟨0⟩⟩) :=
  have h0 : (runCalls ⟨Registry.empty, 0⟩
      [(demoSys emptyEnv, .HTTPS), (demoSys emptyEnv, .other "pvc://"),
       (demoSys emptyEnv, .S3), (demoSys emptyEnv, .HTTP)]).providers .HTTPS
      = some (some ⟨1, .HTTPSProvider ⟨0⟩⟩) := by decide
  ⟨h0, (registry_invariant _ 0).2 [(demoSys demoEnv, .S3)] .HTTPS _ h0⟩

/-! ## Paths -/

theorem under_append (p t : Path) : under p (p ++ t) = true := by
  induction p with
  | nil => rfl
  | cons a p ih => simp [under, ih]

theorem under_refl (p : Path) : under p p = true := by
  simpa using under_append p []

theorem under_iff (p q : Path) : under p q = true ↔ ∃ t, q = p ++ t := by
  constructor
  · induction p generalizing q with
    | nil => intro _; exact ⟨q, rfl⟩
    | cons a p ih =>
      intro h
      cases q with
      | nil => simp [under] at h
      | cons b q =>
        simp only [under, Bool.and_eq_true, decide_eq_true_eq] at h
        obtain ⟨t, ht⟩ := ih q h.2
        exact ⟨t, by rw [h.1, ht]; rfl⟩
  · rintro ⟨t, rfl⟩
    exact under_append p t

theorem under_trans (p q r : Path) (h1 : under p q = true) (h2 : under q r = true) :
    under p r = true := by
  obtain ⟨t, rfl⟩ := (under_iff _ _).1 h1
  obtain ⟨u, rfl⟩ := (under_iff _ _).1 h2
  rw [List.append_assoc]
  exact under_append _ _

theorem mem_inits_iff_under (p q : Path) : p ∈ q.inits ↔ under p q = true := by
  rw [List.mem_inits, under_iff]
  constructor
  · rintro ⟨t, rfl⟩
    exact ⟨t, rfl⟩
  · rintro ⟨t, rfl⟩
    exact ⟨t, rfl⟩

/-- What lies at or beneath a child of a directory lies strictly beneath the
directory. -/
theorem strictlyUnder_of_under_join (dir : Path) (name : String) (q : Path)
    (h : under (Join dir name) q = true) : strictlyUnder dir q = true := by
  obtain ⟨t, rfl⟩ := (under_iff _ _).1 h
  simp only [strictlyUnder, Join, Bool.and_eq_true, decide_eq_true_eq]
  refine ⟨?_, ?_⟩
  · rw [List.append_assoc]
    exact under_append _ _
  · intro heq
    have := congrArg List.length heq
    simp at this

/-- A prefix of a path does not lie strictly beneath it. -/
theorem not_strictlyUnder_of_under (q dir : Path) (h : under q dir = true) :
    strictlyUnder dir q = false := by
  cases hs : strictlyUnder dir q with
  | false => rfl
  | true =>
    exfalso
    simp only [strictlyUnder, Bool.and_eq_true, decide_eq_true_eq] at hs
    obtain ⟨t, ht⟩ := (under_iff _ _).1 h
    obtain ⟨u, hu⟩ := (under_iff _ _).1 hs.1
    have hlen : t.length + u.length = 0 := by
      have := congrArg List.length ht
      rw [hu] at this
      simp only [List.length_append] at this
      omega
    have hu0 : u = [] := List.length_eq_zero.1 (by omega)
    rw [hu0, List.append_nil] at hu
    exact hs.2 hu

/-! ## Resolution along directories -/

theorem plain_iff (fs : FS) (dir : Path) :
    fs.plain dir = true ↔
      ∀ q, under q dir = true → q ∈ fs.paths ∧ (fs.info q).IsDir = true := by
  simp only [FS.plain, List.all_eq_true, Bool.and_eq_true, decide_eq_true_eq]
  constructor
  · intro h q hq
    exact h q ((mem_inits_iff_under q dir).2 hq)
  · intro h q hq
    exact h q ((mem_inits_iff_under q dir).1 hq)

theorem dir_not_symlink (info : FileInfo) (h : info.IsDir = true) :
    ¬ info.fileType = FileType.symlink := by
  simp only [FileInfo.IsDir, decide_eq_true_eq] at h
  rw [h]
  intro hc
  cases hc

theorem lookupIn_ok (fs : FS) (cur : Path) (name : String) (nxt : Path)
    (h : fs.lookupIn cur name = .ok nxt) :
    nxt = cur ++ [name] ∧ nxt ∈ fs.paths ∧ (fs.info cur).IsDir = true ∧
      (fs.info cur).searchable = true := by
  simp only [FS.lookupIn] at h
  by_cases h1 : (fs.info cur).IsDir = true
  · by_cases h2 : (fs.info cur).searchable = true
    · by_cases h3 : cur ++ [name] ∈ fs.paths
      · simp only [h1, h2, h3, if_true] at h
        cases h
        exact ⟨rfl, h3, h1, h2⟩
      · simp [h1, h2, h3] at h
    · simp [h1, h2] at h
  · simp [h1] at h

/-- Along a chain of directories resolution goes component by component, unless
one of them cannot be searched. -/
theorem walkSeg_plain (fs : FS) (follow : Bool) (onLink : Path → Except Errno Path) :
    ∀ (mid cur : Path) (tail : List String),
      (∀ t, under t mid = true → cur ++ t ∈ fs.paths ∧ (fs.info (cur ++ t)).IsDir = true) →
      fs.walkSeg follow onLink cur (mid ++ tail) = fs.walkSeg follow onLink (cur ++ mid) tail ∨
      fs.walkSeg follow onLink cur (mid ++ tail) = .error .EACCES := by
  intro mid
  induction mid with
  | nil =>
    intro cur tail _
    left
    simp
  | cons name mid ih =>
    intro cur tail h
    have hcur := h [] rfl
    simp only [List.append_nil] at hcur
    have hnxt := h [name] (by simp [under])
    have ih2 := ih (cur ++ [name]) tail (by
      intro t ht
      have := h (name :: t) (by simp [under, ht])
      simpa using this)
    by_cases hs : (fs.info cur).searchable = true
    · have hl : fs.lookupIn cur name = .ok (cur ++ [name]) := by
        simp [FS.lookupIn, hcur.2, hs, hnxt.1]
      have hstep : fs.walkSeg follow onLink cur ((name :: mid) ++ tail)
          = fs.walkSeg follow onLink (cur ++ [name]) (mid ++ tail) := by
        simp only [List.cons_append, FS.walkSeg, hl]
        rw [if_neg (fun hc => dir_not_symlink _ hnxt.2 hc.1)]
        rfl
      rw [hstep]
      simpa using ih2
    · right
      have hl : fs.lookupIn cur name = .error .EACCES := by
        simp [FS.lookupIn, hcur.2, hs]
      simp only [List.cons_append, FS.walkSeg, hl]

theorem walk_eq (fs : FS) (follow : Bool) (n : Nat) (p : Path) (h : [] ∈ fs.paths) :
    ∃ onLink, fs.walk follow n p = fs.walkSeg follow onLink [] p := by
  cases n with
  | zero => exact ⟨fun _ => .error .ELOOP, by simp [FS.walk, h]⟩
  | succ n => exact ⟨fun q => fs.walk follow n q, by simp [FS.walk, h]⟩

/-- A path that is reached through directories only resolves to itself, when it
resolves. -/
theorem walk_plain (fs : FS) (follow : Bool) (n : Nat) (dir : Path)
    (h : fs.plain dir = true) (c : Path) (hc : fs.walk follow n dir = .ok c) : c = dir := by
  rw [plain_iff] at h
  obtain ⟨onLink, hw⟩ := walk_eq fs follow n dir (h [] rfl).1
  rw [hw] at hc
  rcases walkSeg_plain fs follow onLink dir [] [] (by simpa using h) with h1 | h1
  · simp only [List.append_nil, List.nil_append] at h1
    rw [h1] at hc
    simp only [FS.walkSeg] at hc
    cases hc
    rfl
  · simp only [List.append_nil] at h1
    rw [h1] at hc
    cases hc

/-- A child of a path that is reached through directories only resolves, as the
entry to unlink, to that child. -/
theorem walk_join_plain (fs : FS) (n : Nat) (dir : Path) (name : String)
    (h : fs.plain dir = true) (c : Path)
    (hc : fs.walk false n (Join dir name) = .ok c) :
    c = Join dir name ∧ c ∈ fs.paths := by
  rw [plain_iff] at h
  obtain ⟨onLink, hw⟩ := walk_eq fs false n (Join dir name) (h [] rfl).1
  rw [hw] at hc
  rcases walkSeg_plain fs false onLink dir [] [name] (by simpa using h) with h1 | h1
  · simp only [List.nil_append] at h1
    rw [Join, h1] at hc
    simp only [FS.walkSeg] at hc
    cases hl : fs.lookupIn dir name with
    | error e => simp [hl] at hc
    | ok nxt =>
      simp only [hl, ne_eq, not_true_eq_false, Bool.false_eq_true, or_self, and_false,
        if_false] at hc
      cases hc
      obtain ⟨h2, h3, _⟩ := lookupIn_ok fs dir name _ hl
      exact ⟨h2, h3⟩
  · rw [Join, h1] at hc
    cases hc

theorem realpath_plain (fs : FS) (dir : Path) (h : fs.plain dir = true) (c : Path)
    (hc : fs.realpath dir = .ok c) : c = dir := by
  unfold FS.realpath at hc
  cases hf : fs.fault dir with
  | some e => simp [hf] at hc
  | none =>
    simp only [hf] at hc
    exact walk_plain fs true 40 dir h c hc

theorem lpath_join_plain (fs : FS) (dir : Path) (name : String) (h : fs.plain dir = true)
    (c : Path) (hc : fs.lpath (Join dir name) = .ok c) : c = Join dir name := by
  unfold FS.lpath at hc
  cases hf : fs.fault (Join dir name) with
  | some e => simp [hf] at hc
  | none =>
    simp only [hf] at hc
    exact (walk_join_plain fs 40 dir name h c hc).1

theorem Open_ok (fs : FS) (name : Path) (d : File) (h : fs.Open name = .ok d) :
    ∃ c, fs.realpath name = .ok c ∧ d = ⟨name, c, fs.info c⟩ ∧
      (fs.info c).readable = true := by
  unfold FS.Open at h
  cases hr : fs.realpath name with
  | error e => simp [hr] at h
  | ok c =>
    simp only [hr] at h
    by_cases hread : (fs.info c).readable = true
    · simp only [hread, if_true] at h
      cases h
      exact ⟨c, rfl, rfl, hread⟩
    · simp [hread] at h

theorem Open_plain (fs : FS) (dir : Path) (hp : fs.plain dir = true) (d : File)
    (h : fs.Open dir = .ok d) :
    d = ⟨dir, dir, fs.info dir⟩ ∧ (fs.info dir).readable = true := by
  obtain ⟨c, hc, hd, hread⟩ := Open_ok fs dir d h
  have := realpath_plain fs dir hp c hc
  subst this
  exact ⟨hd, hread⟩

/-- The call `Remove` either fails and changes nothing, or unlinks the one entry
its path names, which nothing lies beneath. -/
theorem Remove_cases (fs : FS) (p : Path) :
    (∃ e, (fs.Remove p).2 = some e ∧ (fs.Remove p).1 = fs) ∨
    (∃ c, fs.lpath p = .ok c ∧ c ≠ [] ∧ (fs.info (parentDir c)).writable = true ∧
      (∀ q ∈ fs.paths, strictlyUnder c q = false) ∧ (fs.Remove p).2 = none ∧
      (fs.Remove p).1 = { fs with paths := fs.paths.filter fun q => decide (q ≠ c) }) := by
  unfold FS.Remove
  cases hl : fs.lpath p with
  | error e => exact Or.inl ⟨_, rfl, rfl⟩
  | ok c =>
    simp only
    by_cases h1 : c = []
    · rw [if_pos h1]
      exact Or.inl ⟨_, rfl, rfl⟩
    · rw [if_neg h1]
      by_cases h2 : (fs.info (parentDir c)).writable = true
      · rw [if_pos h2]
        by_cases h3 : fs.paths.any (strictlyUnder c) = true
        · rw [if_pos h3]
          exact Or.inl ⟨_, rfl, rfl⟩
        · rw [if_neg h3]
          refine Or.inr ⟨c, rfl, h1, h2, ?_, rfl, rfl⟩
          intro q hq
          cases hs : strictlyUnder c q with
          | false => rfl
          | true => exact absurd (List.any_eq_true.2 ⟨q, hq, hs⟩) h3
      · rw [if_neg h2]
        exact Or.inl ⟨_, rfl, rfl⟩

theorem clear_fst (fs : FS) (top shown : Path) :
    (fs.clear top shown).1 =
      { fs with paths := fs.paths.filter fun q => !under top q || fs.survives top q } := by
  unfold FS.clear
  simp only
  split <;> rfl

theorem clear_snd (fs : FS) (top shown : Path) :
    (fs.clear top shown).2 = none ↔ fs.survives top top = false := by
  unfold FS.clear
  simp only
  split
  · rename_i h
    simp [h]
  · rename_i h
    simp [h]

/-- The file system after `RemoveAll` is the one before with some entries
dropped, and when the path is a child of a directory reached through
directories only, every entry dropped lies at or beneath that child. -/
theorem RemoveAll_plain (fs : FS) (dir : Path) (name : String)
    (hp : fs.plain dir = true) :
    ∃ keep : Path → Bool,
      (fs.RemoveAll (Join dir name)).1 = { fs with paths := fs.paths.filter keep } ∧
      ∀ q, under (Join dir name) q = false → keep q = true := by
  have hsame : ∃ keep : Path → Bool,
      fs = { fs with paths := fs.paths.filter keep } ∧
      ∀ q, under (Join dir name) q = false → keep q = true := by
    refine ⟨fun _ => true, ?_, fun _ _ => rfl⟩
    rw [List.filter_true]
  have hlast : (Join dir name).getLast? = some name := by simp [Join]
  have hpar : parentDir (Join dir name) = dir := by simp [Join, parentDir]
  unfold FS.RemoveAll
  rcases Remove_cases fs (Join dir name) with ⟨e, he, hfs⟩ | ⟨c, hc, _, _, _, hnone, hfs⟩
  · rcases hrm : fs.Remove (Join dir name) with ⟨fs1, _ | e1⟩
    · rw [hrm] at he
      cases he
    · simp only [hlast, hpar]
      split
      · exact hsame
      · cases ho : fs.Open dir with
        | error err1 =>
          simp only
          split
          · exact hsame
          · exact hsame
        | ok parent =>
          obtain ⟨hd, _⟩ := Open_plain fs dir hp parent ho
          subst hd
          simp only
          split
          · split
            · refine ⟨_, clear_fst fs _ _, ?_⟩
              intro q hq
              simp only [Join] at hq
              simp [hq]
            · split
              · exact hsame
              · exact hsame
          · exact hsame
  · have hcj := lpath_join_plain fs dir name hp c hc
    subst hcj
    rcases hrm : fs.Remove (Join dir name) with ⟨fs1, _ | e1⟩
    · rw [hrm] at hfs
      simp only at hfs ⊢
      refine ⟨_, hfs, ?_⟩
      intro q hq
      simp only [decide_eq_true_eq]
      rintro rfl
      rw [under_refl] at hq
      cases hq
    · rw [hrm] at hnone
      cases hnone

theorem mem_filter_fs (fs fs1 : FS) (keep : Path → Bool)
    (h : fs1 = { fs with paths := fs.paths.filter keep }) :
    fs1.info = fs.info ∧ fs1.target = fs.target ∧ fs1.fault = fs.fault ∧
    (∀ q, q ∈ fs1.paths → q ∈ fs.paths) ∧
    (∀ q, keep q = true → (q ∈ fs1.paths ↔ q ∈ fs.paths)) := by
  subst h
  refine ⟨rfl, rfl, rfl, ?_, ?_⟩
  · intro q hq
    exact (List.mem_filter.1 hq).1
  · intro q hk
    simp [List.mem_filter, hk]

/-- A path stays reached through directories only when the entries that are not
strictly beneath it stay and nothing recorded changes. -/
theorem plain_of_frame (fs fs1 : FS) (dir : Path) (hp : fs.plain dir = true)
    (hinfo : fs1.info = fs.info)
    (hmem : ∀ q, strictlyUnder dir q = false → (q ∈ fs1.paths ↔ q ∈ fs.paths)) :
    fs1.plain dir = true := by
  rw [plain_iff] at hp ⊢
  intro q hq
  rw [hinfo, hmem q (not_strictlyUnder_of_under q dir hq)]
  exact hp q hq

/-! ## Properties of the loop of `RemoveDir` -/

theorem removeChildren_cons (dir : Path) (fs : FS) (name : String) (rest : List String) :
    removeChildren dir fs (name :: rest) =
      match fs.RemoveAll (Join dir name) with
      | (fs1, some err) => ⟨some err, fs1, [.removeAll (Join dir name) (some err)]⟩
      | (fs1, none) =>
        ⟨(removeChildren dir fs1 rest).err, (removeChildren dir fs1 rest).fs,
          .removeAll (Join dir name) none :: (removeChildren dir fs1 rest).log⟩ := by
  rw [removeChildren]

/-- On a directory reached through directories only, the loop changes nothing
recorded and touches no entry but those strictly beneath the directory. -/
theorem removeChildren_frame (dir : Path) (names : List String) :
    ∀ fs : FS, fs.plain dir = true →
      (removeChildren dir fs names).fs.info = fs.info ∧
      (removeChildren dir fs names).fs.target = fs.target ∧
      (removeChildren dir fs names).fs.fault = fs.fault ∧
      (∀ q, q ∈ (removeChildren dir fs names).fs.paths → q ∈ fs.paths) ∧
      (∀ q, strictlyUnder dir q = false →
        (q ∈ (removeChildren dir fs names).fs.paths ↔ q ∈ fs.paths)) := by
  induction names with
  | nil =>
    intro fs _
    exact ⟨rfl, rfl, rfl, fun _ h => h, fun _ _ => Iff.rfl⟩
  | cons name rest ih =>
    intro fs hp
    obtain ⟨keep, hfs, hkeep⟩ := RemoveAll_plain fs dir name hp
    obtain ⟨h1, h2, h3, h4, h5⟩ := mem_filter_fs fs _ keep hfs
    have hframe : ∀ q, strictlyUnder dir q = false →
        (q ∈ (fs.RemoveAll (Join dir name)).1.paths ↔ q ∈ fs.paths) := by
      intro q hq
      apply h5 q
      apply hkeep q
      cases hu : under (Join dir name) q with
      | false => rfl
      | true =>
        rw [strictlyUnder_of_under_join dir name q hu] at hq
        cases hq
    rw [removeChildren_cons]
    rcases hr : fs.RemoveAll (Join dir name) with ⟨fs1, _ | e⟩
    · rw [hr] at h1 h2 h3 h4 hframe
      simp only at h1 h2 h3 h4 hframe ⊢
      obtain ⟨i1, i2, i3, i4, i5⟩ := ih fs1 (plain_of_frame fs fs1 dir hp h1 hframe)
      refine ⟨by rw [i1, h1], by rw [i2, h2], by rw [i3, h3], ?_, ?_⟩
      · intro q hq
        exact h4 q (i4 q hq)
      · intro q hq
        rw [i5 q hq, hframe q hq]
    · rw [hr] at h1 h2 h3 h4 hframe
      exact ⟨h1, h2, h3, h4, hframe⟩

/-- The result of `RemoveDir` on a directory that can be opened, in terms of the
loop and the final `Remove`. -/
theorem RemoveDir_of_open (fs : FS) (dir : Path) (d : File)
    (ho : fs.Open dir = .ok d) (hdir : d.info.IsDir = true) :
    RemoveDir fs dir =
      match (removeChildren dir fs (fs.childNames d.real)).err with
      | some err => ⟨some err, (removeChildren dir fs (fs.childNames d.real)).fs,
          (removeChildren dir fs (fs.childNames d.real)).log⟩
      | none =>
        match (removeChildren dir fs (fs.childNames d.real)).fs.Remove dir with
        | (fs2, some err) =>
          ⟨some (.errorf "dir is unable to be deleted: %v" err), fs2,
            (removeChildren dir fs (fs.childNames d.real)).log ++ [.remove dir (some err)]⟩
        | (fs2, none) =>
          ⟨none, fs2,
            (removeChildren dir fs (fs.childNames d.real)).log ++ [.remove dir none]⟩ := by
  simp [RemoveDir, ho, File.Readdirnames, hdir]

theorem parentDir_append (dir : Path) (hne : dir ≠ []) :
    parentDir dir ++ [dir.getLast hne] = dir :=
  List.dropLast_append_getLast hne

theorem passable_iff (fs : FS) (dir : Path) :
    fs.passable dir = true ↔
      ∀ q, under q dir = true →
        q ∈ fs.paths ∧ (fs.info q).IsDir = true ∧ (fs.info q).searchable = true := by
  simp only [FS.passable, List.all_eq_true, Bool.and_eq_true, decide_eq_true_eq, and_assoc]
  constructor
  · intro h q hq
    exact h q ((mem_inits_iff_under q dir).2 hq)
  · intro h q hq
    exact h q ((mem_inits_iff_under q dir).1 hq)

theorem plain_of_passable (fs : FS) (dir : Path) (h : fs.passable dir = true) :
    fs.plain dir = true := by
  rw [passable_iff] at h
  rw [plain_iff]
  intro q hq
  exact ⟨(h q hq).1, (h q hq).2.1⟩

theorem wf_iff (fs : FS) :
    fs.wf = true ↔
      ∀ q ∈ fs.paths, ∀ p, under p q = true →
        p ∈ fs.paths ∧ (p = q ∨ (fs.info p).IsDir = true) := by
  simp only [FS.wf, List.all_eq_true, Bool.and_eq_true, decide_eq_true_eq, Bool.or_eq_true]
  constructor
  · intro h q hq p hp
    exact h q hq p ((mem_inits_iff_under p q).2 hp)
  · intro h q hq p hp
    exact h q hq p ((mem_inits_iff_under p q).1 hp)

/-- Along a chain of searchable directories resolution goes component by
component. -/
theorem walkSeg_passable (fs : FS) (follow : Bool) (onLink : Path → Except Errno Path) :
    ∀ (mid cur : Path) (tail : List String),
      (∀ t, under t mid = true → cur ++ t ∈ fs.paths ∧ (fs.info (cur ++ t)).IsDir = true ∧
        (fs.info (cur ++ t)).searchable = true) →
      fs.walkSeg follow onLink cur (mid ++ tail) = fs.walkSeg follow onLink (cur ++ mid) tail := by
  intro mid
  induction mid with
  | nil =>
    intro cur tail _
    simp
  | cons name mid ih =>
    intro cur tail h
    have hcur := h [] rfl
    simp only [List.append_nil] at hcur
    have hnxt := h [name] (by simp [under])
    have ih2 := ih (cur ++ [name]) tail (by
      intro t ht
      have := h (name :: t) (by simp [under, ht])
      simpa using this)
    have hl : fs.lookupIn cur name = .ok (cur ++ [name]) := by
      simp [FS.lookupIn, hcur.2.1, hcur.2.2, hnxt.1]
    have hstep : fs.walkSeg follow onLink cur ((name :: mid) ++ tail)
        = fs.walkSeg follow onLink (cur ++ [name]) (mid ++ tail) := by
      simp only [List.cons_append, FS.walkSeg, hl]
      rw [if_neg (fun hc => dir_not_symlink _ hnxt.2.1 hc.1)]
      rfl
    rw [hstep]
    simpa using ih2

theorem walk_passable (fs : FS) (follow : Bool) (n : Nat) (dir : Path)
    (h : fs.passable dir = true) : fs.walk follow n dir = .ok dir := by
  rw [passable_iff] at h
  obtain ⟨onLink, hw⟩ := walk_eq fs follow n dir (h [] rfl).1
  rw [hw]
  have := walkSeg_passable fs follow onLink dir [] [] (by simpa using h)
  simp only [List.append_nil, List.nil_append] at this
  rw [this]
  rfl

theorem walk_join_passable (fs : FS) (n : Nat) (dir : Path) (name : String)
    (h : fs.passable dir = true) :
    fs.walk false n (Join dir name) =
      if Join dir name ∈ fs.paths then .ok (Join dir name) else .error .ENOENT := by
  rw [passable_iff] at h
  obtain ⟨onLink, hw⟩ := walk_eq fs false n (Join dir name) (h [] rfl).1
  rw [hw]
  have := walkSeg_passable fs false onLink dir [] [name] (by simpa using h)
  simp only [List.nil_append] at this
  rw [Join, this]
  have hd := h dir (under_refl dir)
  by_cases hm : dir ++ [name] ∈ fs.paths
  · simp [FS.walkSeg, FS.lookupIn, hd.2.1, hd.2.2, hm]
  · simp [FS.walkSeg, FS.lookupIn, hd.2.1, hd.2.2, hm]

/-- In a well-formed state the directory holding an entry strictly beneath `dir`
exists, is a directory and lies at or beneath `dir`. -/
theorem holder_under (fs : FS) (hwf : fs.wf = true) (dir r : Path) (hr : r ∈ fs.paths)
    (hs : strictlyUnder dir r = true) :
    r ≠ [] ∧ parentDir r ∈ fs.paths ∧ (fs.info (parentDir r)).IsDir = true ∧
      under dir (parentDir r) = true := by
  simp only [strictlyUnder, Bool.and_eq_true, decide_eq_true_eq] at hs
  obtain ⟨t, ht⟩ := (under_iff _ _).1 hs.1
  have htne : t ≠ [] := by
    rintro rfl
    rw [List.append_nil] at ht
    exact hs.2 ht
  have hrne : r ≠ [] := by
    rw [ht]
    simp [htne]
  have hpar : parentDir r = dir ++ t.dropLast := by
    rw [parentDir, ht, List.dropLast_append_of_ne_nil _ htne]
  have hup : under (parentDir r) r = true :=
    (under_iff _ _).2 ⟨[r.getLast hrne], (parentDir_append r hrne).symm⟩
  have := (wf_iff fs).1 hwf r hr (parentDir r) hup
  refine ⟨hrne, this.1, ?_, ?_⟩
  · rcases this.2 with h1 | h1
    · exfalso
      have := congrArg List.length h1
      simp only [parentDir, List.length_dropLast] at this
      have hpos : 0 < r.length := List.length_pos.2 hrne
      omega
    · exact h1
  · rw [hpar]
    exact under_append _ _

theorem clean_iff (fs : FS) (dir : Path) :
    fs.clean dir = true ↔
      ∀ a ∈ fs.paths, under dir a = true → (fs.info a).IsDir = true →
        (fs.info a).readable = true ∧ (fs.info a).writable = true ∧
          (fs.info a).searchable = true := by
  simp only [FS.clean, List.all_eq_true, Bool.or_eq_true, Bool.not_eq_true', Bool.and_eq_true,
    Bool.and_eq_false_imp, and_assoc]
  constructor
  · intro h a ha hu hd
    rcases h a ha with h1 | h1
    · rw [h1 hu] at hd
      cases hd
    · exact h1
  · intro h a ha
    by_cases hu : under dir a = true
    · by_cases hd : (fs.info a).IsDir = true
      · exact Or.inr (h a ha hu hd)
      · left
        intro _
        simpa using hd
    · left
      intro hc
      exact absurd hc hu

/-- In a well-formed state where every directory at or beneath `dir` can be
listed, written and searched, nothing at or beneath a child of `dir` resists
`RemoveAll`. -/
theorem blocked_false_of_clean (fs : FS) (hwf : fs.wf = true) (dir : Path) (name : String)
    (hclean : fs.clean dir = true) (r : Path) (hr : r ∈ fs.paths)
    (hu : under (Join dir name) r = true) : fs.blocked (Join dir name) r = false := by
  rw [clean_iff] at hclean
  have hs := strictlyUnder_of_under_join dir name r hu
  obtain ⟨hrne, hpm, hpd, hpu⟩ := holder_under fs hwf dir r hr hs
  obtain ⟨_, hw, hx⟩ := hclean _ hpm hpu hpd
  have hcan : fs.canUnlink r = true := by
    simp [FS.canUnlink, hrne, hw, hx]
  have hreach : fs.reached (Join dir name) r = true := by
    simp only [FS.reached, List.all_eq_true, Bool.or_eq_true, Bool.not_eq_true',
      Bool.and_eq_false_imp]
    intro a ha
    by_cases hcond : under (Join dir name) a = true ∧ strictlyUnder a r = true
    · right
      obtain ⟨hua, har⟩ := hcond
      have hsa := strictlyUnder_of_under_join dir name a hua
      obtain ⟨_, hapm, hapd, hapu⟩ := holder_under fs hwf dir a ha hsa
      obtain ⟨_, _, hax⟩ := hclean _ hapm hapu hapd
      have hadir : (fs.info a).IsDir = true := by
        simp only [strictlyUnder, Bool.and_eq_true, decide_eq_true_eq] at har
        rcases ((wf_iff fs).1 hwf r hr a har.1).2 with h1 | h1
        · exact absurd h1.symm har.2
        · exact h1
      have hsa2 : under dir a = true := by
        simp only [strictlyUnder, Bool.and_eq_true] at hsa
        exact hsa.1
      obtain ⟨har2, _, _⟩ := hclean a ha hsa2 hadir
      simp [FS.canEnter, hadir, har2, hax]
    · left
      intro h1
      cases h2 : strictlyUnder a r with
      | false => rfl
      | true => exact absurd ⟨h1, h2⟩ hcond
  simp [FS.blocked, hcan, hreach]

theorem survives_false_of_clean (fs : FS) (hwf : fs.wf = true) (dir : Path) (name : String)
    (hclean : fs.clean dir = true) (q : Path) (hq : under (Join dir name) q = true) :
    fs.survives (Join dir name) q = false := by
  cases hs : fs.survives (Join dir name) q with
  | false => rfl
  | true =>
    exfalso
    obtain ⟨r, hr, hcond⟩ := List.any_eq_true.1 hs
    simp only [Bool.and_eq_true] at hcond
    rw [blocked_false_of_clean fs hwf dir name hclean r hr
      (under_trans _ _ _ hq hcond.1)] at hcond
    exact Bool.false_ne_true hcond.2

theorem Remove_succeeds (fs : FS) (p c : Path) (hl : fs.lpath p = .ok c) (h1 : c ≠ [])
    (h2 : (fs.info (parentDir c)).writable = true)
    (h3 : ∀ q ∈ fs.paths, strictlyUnder c q = false) :
    fs.Remove p = ({ fs with paths := fs.paths.filter fun q => decide (q ≠ c) }, none) := by
  have h4 : ¬ (fs.paths.any (strictlyUnder c) = true) := by
    intro hany
    obtain ⟨q, hq, hs⟩ := List.any_eq_true.1 hany
    rw [h3 q hq] at hs
    cases hs
  unfold FS.Remove
  simp only [hl]
  rw [if_neg h1, if_pos h2, if_neg h4]

theorem lpath_join_passable (fs : FS) (dir : Path) (name : String)
    (h : fs.passable dir = true) (hf : ∀ q, under dir q = true → fs.fault q = none) :
    fs.lpath (Join dir name) =
      if Join dir name ∈ fs.paths then .ok (Join dir name) else .error .ENOENT := by
  simp only [FS.lpath, hf (Join dir name) (under_append dir [name])]
  exact walk_join_passable fs 40 dir name h

theorem Open_passable (fs : FS) (dir : Path) (h : fs.passable dir = true)
    (hf : ∀ q, under dir q = true → fs.fault q = none)
    (hread : (fs.info dir).readable = true) :
    fs.Open dir = .ok ⟨dir, dir, fs.info dir⟩ := by
  simp [FS.Open, FS.realpath, hf dir (under_refl dir), walk_passable fs true 40 dir h, hread]

/-- One turn of the loop when nothing resists: `RemoveAll` on a child returns
nil and leaves the state without the child and all beneath it. -/
theorem RemoveAll_clean (fs : FS) (hwf : fs.wf = true) (dir : Path) (name : String)
    (hpass : fs.passable dir = true) (hf : ∀ q, under dir q = true → fs.fault q = none)
    (hread : (fs.info dir).readable = true) (hclean : fs.clean dir = true) :
    fs.RemoveAll (Join dir name) =
      ({ fs with paths := fs.paths.filter fun q => !under (Join dir name) q }, none) := by
  have hd := (passable_iff fs dir).1 hpass dir (under_refl dir)
  have hdw : (fs.info dir).writable = true :=
    ((clean_iff fs dir).1 hclean dir hd.1 (under_refl dir) hd.2.1).2.1
  have hlast : (Join dir name).getLast? = some name := by simp [Join]
  have hpar : parentDir (Join dir name) = dir := by simp [Join, parentDir]
  have hjne : Join dir name ≠ [] := by simp [Join]
  have hl := lpath_join_passable fs dir name hpass hf
  by_cases hm : Join dir name ∈ fs.paths
  · rw [if_pos hm] at hl
    by_cases hempty : ∀ q ∈ fs.paths, strictlyUnder (Join dir name) q = false
    · have hrm := Remove_succeeds fs _ _ hl hjne (by rw [hpar]; exact hdw) hempty
      unfold FS.RemoveAll
      rw [hrm]
      simp only [Prod.mk.injEq, and_true]
      congr 1
      apply List.filter_congr
      intro q hq
      have := hempty q hq
      simp only [strictlyUnder, Bool.and_eq_false_imp, decide_eq_false_iff_not,
        Decidable.not_not] at this
      by_cases hu : under (Join dir name) q = true
      · simp [hu, this hu, under_refl]
      · have hne : q ≠ Join dir name := by
          rintro rfl
          exact hu (under_refl _)
        simp [hu, hne]
    · have hany : fs.paths.any (strictlyUnder (Join dir name)) = true := by
        by_contra hc
        apply hempty
        intro q hq
        cases hs : strictlyUnder (Join dir name) q with
        | false => rfl
        | true => exact absurd (List.any_eq_true.2 ⟨q, hq, hs⟩) hc
      have hrm : fs.Remove (Join dir name) =
          (fs, some (.pathError "remove" (Join dir name) .ENOTEMPTY)) := by
        unfold FS.Remove
        simp only [hl]
        rw [if_neg hjne, hpar, if_pos hdw, if_pos hany]
      unfold FS.RemoveAll
      rw [hrm]
      simp only [IsNotExist, Bool.false_eq_true, if_false, hlast, hpar,
        Open_passable fs dir hpass hf hread, hd.2.1, if_true]
      rw [if_pos (by simpa [Join] using hm)]
      have hsurv := survives_false_of_clean fs hwf dir name hclean
      have hc1 := clear_fst fs (Join dir name) (Join dir name)
      have hc2 := (clear_snd fs (Join dir name) (Join dir name)).2
        (hsurv _ (under_refl _))
      have hfilter : (fs.paths.filter fun q =>
            !under (Join dir name) q || fs.survives (Join dir name) q)
          = fs.paths.filter fun q => !under (Join dir name) q := by
        apply List.filter_congr
        intro q _
        by_cases hu : under (Join dir name) q = true
        · simp [hu, hsurv q hu]
        · simp [hu]
      rw [hfilter] at hc1
      show fs.clear (Join dir name) (Join dir name) = _
      rw [← hc1, ← hc2]
  · rw [if_neg hm] at hl
    have hrm : fs.Remove (Join dir name) =
        (fs, some (.pathError "remove" (Join dir name) .ENOENT)) := by
      unfold FS.Remove
      simp only [hl]
    unfold FS.RemoveAll
    rw [hrm]
    simp only [IsNotExist, if_true, Prod.mk.injEq, and_true]
    have hfilter : (fs.paths.filter fun q => !under (Join dir name) q) = fs.paths := by
      rw [List.filter_eq_self]
      intro q hq
      cases hu : under (Join dir name) q with
      | false => rfl
      | true => exact absurd ((wf_iff fs).1 hwf q hq _ hu).1 hm
    rw [hfilter]

theorem mem_childNames (fs : FS) (dir : Path) (name : String)
    (h : Join dir name ∈ fs.paths) : name ∈ fs.childNames dir := by
  simp only [FS.childNames, List.mem_dedup, List.mem_filterMap]
  refine ⟨Join dir name, h, ?_⟩
  simp [Join]

/-- What lies strictly beneath a directory lies at or beneath one of its
children. -/
theorem under_join_of_strictlyUnder (dir q : Path) (h : strictlyUnder dir q = true) :
    ∃ name, under (Join dir name) q = true := by
  simp only [strictlyUnder, Bool.and_eq_true, decide_eq_true_eq] at h
  obtain ⟨t, rfl⟩ := (under_iff _ _).1 h.1
  cases t with
  | nil => simp at h
  | cons name t =>
    refine ⟨name, (under_iff _ _).2 ⟨t, ?_⟩⟩
    simp [Join]

theorem passable_of_frame (fs fs1 : FS) (dir : Path) (hp : fs.passable dir = true)
    (hinfo : fs1.info = fs.info)
    (hmem : ∀ q, strictlyUnder dir q = false → (q ∈ fs1.paths ↔ q ∈ fs.paths)) :
    fs1.passable dir = true := by
  rw [passable_iff] at hp ⊢
  intro q hq
  rw [hinfo, hmem q (not_strictlyUnder_of_under q dir hq)]
  exact hp q hq

/-- Dropping a child of a directory with all beneath it keeps a state well
formed. -/
theorem wf_drop (fs : FS) (hwf : fs.wf = true) (top : Path) :
    ({ fs with paths := fs.paths.filter fun q => !under top q } : FS).wf = true := by
  rw [wf_iff] at hwf ⊢
  intro q hq p hp
  simp only [List.mem_filter, Bool.not_eq_true', ] at hq ⊢
  obtain ⟨h1, h2⟩ := hwf q hq.1 p hp
  refine ⟨⟨h1, ?_⟩, h2⟩
  cases hu : under top p with
  | false => rfl
  | true =>
    rw [under_trans top p q hu hp] at hq
    exact absurd hq.2 (by simp)

/-- When nothing resists, the loop ends without error, every removal it logs
succeeded, and nothing at or beneath a listed child is left. -/
theorem removeChildren_clean (dir : Path) (names : List String) :
    ∀ fs : FS, fs.wf = true → fs.passable dir = true →
      (∀ q, under dir q = true → fs.fault q = none) →
      (fs.info dir).readable = true → fs.clean dir = true →
      (removeChildren dir fs names).err = none ∧
      (∀ c ∈ (removeChildren dir fs names).log, c.res = none) ∧
      (∀ name ∈ names, ∀ q, under (Join dir name) q = true →
        q ∉ (removeChildren dir fs names).fs.paths) := by
  induction names with
  | nil =>
    intro fs _ _ _ _ _
    simp [removeChildren]
  | cons name rest ih =>
    intro fs hwf hpass hf hread hclean
    have hra := RemoveAll_clean fs hwf dir name hpass hf hread hclean
    rw [removeChildren_cons, hra]
    simp only
    have hwf1 := wf_drop fs hwf (Join dir name)
    have hpass1 : ({ fs with paths := fs.paths.filter fun q => !under (Join dir name) q }
        : FS).passable dir = true := by
      refine passable_of_frame fs
        { fs with paths := fs.paths.filter fun q => !under (Join dir name) q } dir hpass rfl ?_
      intro q hq
      simp only [List.mem_filter, Bool.not_eq_true', and_iff_left_iff_imp]
      intro _
      cases hu : under (Join dir name) q with
      | false => rfl
      | true =>
        rw [strictlyUnder_of_under_join dir name q hu] at hq
        cases hq
    have hclean1 : ({ fs with paths := fs.paths.filter fun q => !under (Join dir name) q }
        : FS).clean dir = true := by
      rw [clean_iff] at hclean ⊢
      intro a ha
      exact hclean a (List.mem_filter.1 ha).1
    obtain ⟨i1, i2, i3⟩ := ih _ hwf1 hpass1 hf hread hclean1
    obtain ⟨_, _, _, i4, _⟩ := removeChildren_frame dir rest _ (plain_of_passable _ dir hpass1)
    refine ⟨i1, ?_, ?_⟩
    · intro c hc
      rcases List.mem_cons.1 hc with rfl | hc
      · rfl
      · exact i2 c hc
    · intro name2 hn q hq hmem
      rcases List.mem_cons.1 hn with rfl | hn
      · have := i4 q hmem
        simp only [List.mem_filter, Bool.not_eq_true'] at this
        rw [hq] at this
        exact absurd this.2 (by simp)
      · exact i3 name2 hn q hq hmem

/-- In a well-formed state without kernel faults, `RemoveDir` on a directory
other than the root that can be walked to and listed, inside a writable
directory, with every directory at or beneath it open to listing, writing and
searching, performs only removals that succeed and returns nil. -/
theorem RemoveDir_succeeds_of_clean (fs : FS) (dir : Path)
    (hwf : fs.wf = true) (hne : dir ≠ []) (hpass : fs.passable dir = true)
    (hf : ∀ q, under dir q = true → fs.fault q = none)
    (hread : (fs.info dir).readable = true)
    (hpw : (fs.info (parentDir dir)).writable = true) (hclean : fs.clean dir = true) :
    (∀ c ∈ (RemoveDir fs dir).log, c.res = none) ∧ (RemoveDir fs dir).err = none := by
  have ho := Open_passable fs dir hpass hf hread
  have hd := (passable_iff fs dir).1 hpass dir (under_refl dir)
  obtain ⟨h1, h2, h4⟩ := removeChildren_clean dir (fs.childNames dir) fs hwf hpass hf hread
    hclean
  obtain ⟨f1, _, f3, f4, f5⟩ := removeChildren_frame dir (fs.childNames dir) fs
    (plain_of_passable fs dir hpass)
  have hpass1 := passable_of_frame fs _ dir hpass f1 f5
  have hl : (removeChildren dir fs (fs.childNames dir)).fs.lpath dir = .ok dir := by
    simp only [FS.lpath, f3, hf dir (under_refl dir)]
    exact walk_passable _ false 40 dir hpass1
  have hempty : ∀ q ∈ (removeChildren dir fs (fs.childNames dir)).fs.paths,
      strictlyUnder dir q = false := by
    intro q hq
    cases hsu : strictlyUnder dir q with
    | false => rfl
    | true =>
      exfalso
      obtain ⟨name, hn⟩ := under_join_of_strictlyUnder dir q hsu
      have hchild : Join dir name ∈ fs.paths := ((wf_iff fs).1 hwf q (f4 q hq) _ hn).1
      exact h4 name (mem_childNames fs dir name hchild) q hn hq
  have hrm := Remove_succeeds (removeChildren dir fs (fs.childNames dir)).fs dir dir hl hne
    (by rw [f1]; exact hpw) hempty
  rw [RemoveDir_of_open fs dir _ ho hd.2.1]
  simp only [h1, hrm, and_true]
  intro c hc
  rcases List.mem_append.1 hc with hc | hc
  · exact h2 c hc
  · rw [List.mem_singleton.1 hc]
    rfl

/-! ## Properties of `FileExists` -/

theorem FileExists_of_ok (fs : FS) (name : Path) (info : FileInfo)
    (h : fs.Stat name = .ok info) : FileExists fs name = !info.IsDir := by
  simp [FileExists, h, errOf, IsNotExist]

theorem FileExists_of_error (fs : FS) (name : Path) (err : GoError)
    (h : fs.Stat name = .error err) : FileExists fs name = false := by
  simp [FileExists, h]

/-! ## The claims about the file system helpers -/

/-- C8 as stated fails: a character device is not a regular file, yet
`FileExists` returns true for it. -/
theorem fileExists_true_on_device :
    demoFS.Stat ["dev", "null"] = .ok { fileType := .charDevice } ∧
    FileInfo.IsRegular { fileType := .charDevice } = false ∧
    FileExists demoFS ["dev", "null"] = true := by
  refine ⟨rfl, rfl, ?_⟩
  decide

/-- C8, amended: `FileExists` returns true exactly when `os.Stat` succeeds and
the entry is not a directory, hence for a regular file on which `os.Stat`
succeeds; it returns false when the path does not exist, when it is a
directory, and when `os.Stat` fails for any other reason. -/
theorem fileExists_iff_not_dir (fs : FS) (path : Path) :
    (FileExists fs path = true ↔
      ∃ info, fs.Stat path = .ok info ∧ info.IsDir = false) ∧
    (∀ info, fs.Stat path = .ok info → info.IsRegular = true →
      FileExists fs path = true) ∧
    (∀ err, fs.Stat path = .error err → IsNotExist (some err) = true →
      FileExists fs path = false) ∧
    (∀ info, fs.Stat path = .ok info → info.IsDir = true → FileExists fs path = false) ∧
    (∀ err, fs.Stat path = .error err → FileExists fs path = false) := by
  refine ⟨?_, ?_, ?_, ?_, ?_⟩
  · cases hs : fs.Stat path with
    | ok info =>
      rw [FileExists_of_ok fs path info hs]
      constructor
      · intro h
        exact ⟨info, rfl, by simpa using h⟩
      · rintro ⟨info2, hi, hd⟩
        cases hi
        simp [hd]
    | error err =>
      rw [FileExists_of_error fs path err hs]
      simp
  · intro info hs hreg
    rw [FileExists_of_ok fs path info hs]
    simp only [FileInfo.IsRegular, decide_eq_true_eq] at hreg
    simp [FileInfo.IsDir, hreg]
  · intro err hs _
    exact FileExists_of_error fs path err hs
  · intro info hs hd
    rw [FileExists_of_ok fs path info hs]
    simp [hd]
  · intro err hs
    exact FileExists_of_error fs path err hs

/-- Witness of C8, amended: a regular file, also reached through a symbolic
link; a directory; a missing path; a path below a regular file; a file in a
directory that cannot be searched; a symbolic link to itself; a path name on
which the kernel raises an error of its own. -/
theorem fileExists_iff_not_dir_witness :
    FileExists demoFS ["mnt", "other.txt"] = true ∧
    FileExists demoFS ["mnt", "latest", "config.json"] = true ∧
    FileExists demoFS ["mnt", "models"] = false ∧
    FileExists demoFS ["mnt", "missing"] = false ∧
    FileExists demoFS ["mnt", "other.txt", "x"] = false ∧
    FileExists demoFS ["vault", "key.pem"] = false ∧
    FileExists demoFS ["loop"] = false ∧
    FileExists demoFS ["mnt", "worn"] = false :=
  ⟨(fileExists_iff_not_dir demoFS ["mnt", "other.txt"]).2.1 { fileType := .regular } rfl rfl,
   (fileExists_iff_not_dir demoFS ["mnt", "latest", "config.json"]).2.1
     { fileType := .regular } rfl rfl,
   (fileExists_iff_not_dir demoFS ["mnt", "models"]).2.2.2.1 { fileType := .directory } rfl rfl,
   (fileExists_iff_not_dir demoFS ["mnt", "missing"]).2.2.1
     (.pathError "stat" ["mnt", "missing"] .ENOENT) rfl rfl,
   (fileExists_iff_not_dir demoFS ["mnt", "other.txt", "x"]).2.2.2.2
     (.pathError "stat" ["mnt", "other.txt", "x"] .ENOTDIR) rfl,
   (fileExists_iff_not_dir demoFS ["vault", "key.pem"]).2.2.2.2
     (.pathError "stat" ["vault", "key.pem"] .EACCES) rfl,
   (fileExists_iff_not_dir demoFS ["loop"]).2.2.2.2
     (.pathError "stat" ["loop"] .ELOOP) rfl,
   (fileExists_iff_not_dir demoFS ["mnt", "worn"]).2.2.2.2
     (.pathError "stat" ["mnt", "worn"] .ESTALE) rfl⟩

/-- The conditions under which every removal succeeds hold for the model
directory of the example file system. -/
theorem RemoveDir_succeeds_of_clean_example :
    (∀ c ∈ (RemoveDir demoFS ["mnt", "models"]).log, c.res = none) ∧
    (RemoveDir demoFS ["mnt", "models"]).err = none :=
  RemoveDir_succeeds_of_clean demoFS ["mnt", "models"] (by decide) (by decide) (by decide)
    (by
      intro q hq
      obtain ⟨t, rfl⟩ := (under_iff _ _).1 hq
      simp [demoFS])
    (by decide) (by decide) (by decide)

end Storage
